import Mathlib

/-!
Verification of the HKSA tabling scheduler core (`scheduler_core.py`).

The Python data model and operations are shallowly embedded:

* `Member`, `Shift` mirror the dataclasses; a member's mutable
  `assigned_shifts` list is kept outside the `Member` record, as a map from
  the member's index in the roster list to its list of `(day, slot)` pairs,
  because Python mutates it on the shared object.
* Inside the solver, shift occupants are represented by their index in the
  roster list (`self.members`), since after `solve`'s lock-restoration pass
  every occupant is an object of `self.members`, and object identity in the
  Python code is exactly roster position.
* Python dicts become association lists; `dict.get` with last-write-wins
  becomes a left fold (`stateGet`).
* Python's stable `list.sort(key=..., reverse=...)` becomes
  `List.insertionSort` with the corresponding total preorder (a stable sort
  is extensionally determined by the key order, so this is faithful).
* The recursive `_backtrack` raises `StopIteration` on budget exhaustion;
  this becomes `Except SState SState`, the error carrying the state at the
  moment of the raise (which `solve` then reads, as the Python `self` does).
  Recursion is driven by a fuel argument equal to `grid.length + 1 - index`
  at every call site, which makes the recursion structural; the fuel-zero
  case is unreachable (every recursive call strictly precedes the in-code
  `shift_index >= len(grid)` exit).
-/

/-- `TIME_SLOTS` constant: label/index pairs in Python dict insertion order. -/
def TIME_SLOTS : List (String × Nat) :=
  [("10:30-11:30", 0), ("11:30-12:30", 1), ("12:30-1:30", 2), ("1:30-2:30", 3)]

/-- `ALL_DAYS` constant. -/
def ALL_DAYS : List String :=
  ["Monday", "Tuesday", "Wednesday", "Thursday", "Friday"]

/-- The static fields of the Python `Member` dataclass.  The mutable
`assigned_shifts` list is modelled separately (see module docstring). -/
structure Member where
  name : String
  gender : String
  availability : List (String × List Nat)
  avoid_opening : Bool
  avoid_closing : Bool
  preferred_days : List String
  time_overrides : List (String × List (Nat × Bool))
deriving DecidableEq

/-- `Member.is_available`: overrides first, then base availability and the
avoid-opening/closing flags. -/
def Member.is_available (m : Member) (day : String) (time_idx : Nat) : Bool :=
  match (List.lookup day m.time_overrides).bind (fun ov => List.lookup time_idx ov) with
  | some b => b
  | none =>
    if !(((List.lookup day m.availability).getD []).contains time_idx) then false
    else if m.avoid_opening && time_idx == 0 then false
    else if m.avoid_closing && time_idx == 3 then false
    else true

/-- Modelled from the spec's words for claim C9 (the refinement side):
"override map entry (if present) → else base availability membership AND
NOT(avoid-opening AND slot==0) AND NOT(avoid-closing AND slot==3); a day
absent from the availability map resolves to unavailable." -/
def availableSpec (m : Member) (day : String) (time_idx : Nat) : Bool :=
  match (List.lookup day m.time_overrides).bind (fun ov => List.lookup time_idx ov) with
  | some b => b
  | none =>
    ((List.lookup day m.availability).getD []).contains time_idx
      && !(m.avoid_opening && time_idx == 0)
      && !(m.avoid_closing && time_idx == 3)

/-- The Python `Shift` dataclass (used for the input, pre-filled grid, where
occupants are arbitrary `Member` values). -/
structure Shift where
  day : String
  time_idx : Nat
  time_label : String
  assigned_members : List Member := []
  locked : Bool := false
deriving DecidableEq

/-- `Shift.needs_male`. -/
def Shift.needs_male (s : Shift) : Bool :=
  s.time_idx == 0 || s.time_idx == 3

/-- An entry of the list returned by `find_best_slots_for_pair`. -/
structure RankedSlot where
  day : String
  time_idx : Nat
  time_label : String
  score : Nat
  reason : String
deriving DecidableEq

/-- The descending-score order used by `ranked_slots.sort(key=score, reverse=True)`. -/
def rsGe (a b : RankedSlot) : Prop := b.score ≤ a.score

instance : DecidableRel rsGe := fun a b => Nat.decLe b.score a.score

instance : IsTotal RankedSlot rsGe := ⟨fun a b => Nat.le_total b.score a.score⟩

instance : IsTrans RankedSlot rsGe := ⟨fun _ _ _ h1 h2 => Nat.le_trans h2 h1⟩

/-- `find_best_slots_for_pair`: one entry per (day, slot) where both members
are available, skipping needs-male slots the pair cannot cover; then a stable
sort by score descending. -/
def find_best_slots_for_pair (p1 p2 : Member) (active_days : List String) :
    List RankedSlot :=
  let raw := active_days.flatMap (fun day =>
    TIME_SLOTS.filterMap (fun tl =>
      if p1.is_available day tl.2 && p2.is_available day tl.2 then
        if (tl.2 == 0 || tl.2 == 3) && !(p1.gender == "Male" || p2.gender == "Male") then
          none
        else
          some { day := day, time_idx := tl.2, time_label := tl.1,
                 score := 100 + (if p1.preferred_days.contains day then 10 else 0)
                   + (if p2.preferred_days.contains day then 10 else 0) + 5,
                 reason := "Both Available"
                   ++ (if p1.preferred_days.contains day then
                        ", " ++ p1.name ++ " prefers " ++ day else "")
                   ++ (if p2.preferred_days.contains day then
                        ", " ++ p2.name ++ " prefers " ++ day else "") }
      else none))
  raw.insertionSort rsGe

/-- The constraint/roster configuration held by `Scheduler.__init__`
(after its `x if x else default` normalizations). -/
structure Sched where
  members : List Member
  active_days : List String
  forbidden_pairs : List (String × String)
  must_schedule : List String
  never_schedule : List String

/-- A grid shift as the solver sees it after the lock-restoration pass of
`solve`: occupants are indices into the roster list (`self.members`), which
is exactly Python object identity at that point. -/
structure IShift where
  day : String
  time_idx : Nat
  time_label : String
  occ : List Nat
  locked : Bool
deriving DecidableEq

/-- `needs_male` on solver-side shifts. -/
def IShift.needsMale (s : IShift) : Bool :=
  s.time_idx == 0 || s.time_idx == 3

/-- Name of the roster member at index `i` (out of range gives `""`;
indices are always in range along reachable states). -/
def nameAt (ms : List Member) (i : Nat) : String :=
  ((ms[i]?).map Member.name).getD ""

/-- Gender of the roster member at index `i`. -/
def genderAt (ms : List Member) (i : Nat) : String :=
  ((ms[i]?).map Member.gender).getD ""

/-- Preferred days of the roster member at index `i`. -/
def prefAt (ms : List Member) (i : Nat) : List String :=
  ((ms[i]?).map Member.preferred_days).getD []

/-- `is_available` lifted to a roster index. -/
def availIdx (ms : List Member) (i : Nat) (day : String) (t : Nat) : Bool :=
  match ms[i]? with
  | some m => m.is_available day t
  | none => false

/-- `next((x for x in self.members if x.name == name), None)`, as an index. -/
def findIdxByName (ms : List Member) (n : String) : Option Nat :=
  ms.findIdx? (fun m => m.name == n)

/-- Indices of `self.working_members`: members whose name is not in
`never_schedule`, in roster order. -/
def workingIdx (c : Sched) : List Nat :=
  (List.range c.members.length).filter
    (fun i => !(c.never_schedule.contains (nameAt c.members i)))

/-- A captured state: the Python dict from `(day, time_idx)` to occupant
names, as its insertion sequence. -/
abbrev StateMap := List ((String × Nat) × List String)

/-- `dict.get(key, [])` on a capture sequence: the last write wins. -/
def stateGet (st : StateMap) (k : String × Nat) : List String :=
  (st.foldl (fun acc e => if e.1 == k then some e.2 else acc) none).getD []

/-- `_capture_state`: record each shift's occupant names keyed by
`(day, time_idx)`, in grid order. -/
def captureState (ms : List Member) (grid : List IShift) : StateMap :=
  grid.map (fun s => ((s.day, s.time_idx), s.occ.map (nameAt ms)))

/-- The occupant part of `restore_state`: every shift's occupants are
replaced by the resolvable names stored under the shift's key. -/
def restoreGrid (ms : List Member) (grid : List IShift) (st : StateMap) :
    List IShift :=
  grid.map (fun s =>
    { s with occ := (stateGet st (s.day, s.time_idx)).filterMap (findIdxByName ms) })

/-- Member `assigned_shifts` lists rebuilt from a grid: one `(day, slot)`
entry per occurrence of the member in a shift, in grid order.  Both
`restore_state` and the lock-restoration pass of `solve` produce exactly
this shape (they clear all lists and then append in grid order). -/
def derivedAssigned (grid : List IShift) : Nat → List (String × Nat) :=
  fun i => grid.flatMap (fun s =>
    (s.occ.filter (fun j => j == i)).map (fun _ => (s.day, s.time_idx)))

/-- `restore_state`: the new grid together with the rebuilt per-member
`assigned_shifts` map. -/
def restoreState (ms : List Member) (grid : List IShift) (st : StateMap) :
    List IShift × (Nat → List (String × Nat)) :=
  let g := restoreGrid ms grid st
  (g, derivedAssigned g)

/-- `_is_pair_forbidden`. -/
def isPairForbidden (c : Sched) (n1 n2 : String) : Bool :=
  c.forbidden_pairs.any (fun f => (n1 == f.1 && n2 == f.2) || (n1 == f.2 && n2 == f.1))

/-- `itertools.combinations(l, 2)` in its enumeration order. -/
def combinations2 : List α → List (α × α)
  | [] => []
  | x :: xs => xs.map (fun y => (x, y)) ++ combinations2 xs

/-- The `available_people` comprehension shared by `_get_valid_pairs` and
`_get_valid_partners`: working members available at the slot with an empty
`assigned_shifts` list. -/
def availablePeople (c : Sched) (asg : Nat → List (String × Nat))
    (day : String) (t : Nat) : List Nat :=
  (workingIdx c).filter (fun i => availIdx c.members i day t && (asg i).isEmpty)

/-- `_get_valid_pairs` for the shift at `(day, t)`. -/
def validPairs (c : Sched) (asg : Nat → List (String × Nat))
    (day : String) (t : Nat) : List (Nat × Nat) :=
  (combinations2 (availablePeople c asg day t)).filter (fun p =>
    !(isPairForbidden c (nameAt c.members p.1) (nameAt c.members p.2)) &&
    (!(t == 0 || t == 3) || genderAt c.members p.1 == "Male"
      || genderAt c.members p.2 == "Male"))

/-- `_get_valid_partners` for the shift at `(day, t)` with existing occupant
`cur`, including its stable preferred-day-first sort. -/
def validPartners (c : Sched) (asg : Nat → List (String × Nat))
    (day : String) (t : Nat) (cur : Nat) : List Nat :=
  let avail := (workingIdx c).filter (fun j =>
    availIdx c.members j day t && (asg j).isEmpty
      && !(nameAt c.members j == nameAt c.members cur))
  let vp := avail.filter (fun j =>
    !(isPairForbidden c (nameAt c.members cur) (nameAt c.members j)) &&
    (!(t == 0 || t == 3) || genderAt c.members cur == "Male"
      || genderAt c.members j == "Male"))
  vp.insertionSort (fun a b =>
    (if (prefAt c.members b).contains day then 1 else 0 : Nat) ≤
      (if (prefAt c.members a).contains day then 1 else 0))

/-- The `pair_score` closure of `_backtrack`. -/
def pairScore (c : Sched) (day : String) (p : Nat × Nat) : Nat :=
  (if c.must_schedule.contains (nameAt c.members p.1) then 1000 else 0)
  + (if c.must_schedule.contains (nameAt c.members p.2) then 1000 else 0)
  + (if (prefAt c.members p.1).contains day then 5 else 0)
  + (if (prefAt c.members p.2).contains day then 5 else 0)

/-- The `get_difficulty` closure of `solve`. -/
def getDifficulty (c : Sched) (asg : Nat → List (String × Nat))
    (s : IShift) : Nat :=
  match s.occ with
  | [ex] => (validPartners c asg s.day s.time_idx ex).length
  | _ => (validPairs c asg s.day s.time_idx).length

/-- One record of `self.top_schedules`. -/
structure TopEntry where
  state : StateMap
  score : Nat
  description : String
deriving DecidableEq

/-- The fixed context of one `_backtrack` run: configuration plus the
reordered grid as it stands when `solve` starts the recursion (`occ` holds
the initial occupancy; only occupancy ever mutates afterwards). -/
structure Ctx where
  c : Sched
  gs : List IShift

/-- The shift skeleton at position `j` of the reordered grid. -/
def skelAt (cx : Ctx) (j : Nat) : IShift :=
  cx.gs.getD j ⟨"", 0, "", [], false⟩

/-- The mutable solver state threaded through `_backtrack`: grid occupancy by
position, per-member `assigned_shifts`, and the bookkeeping fields of `self`. -/
structure SState where
  occ : Nat → List Nat
  assigned : Nat → List (String × Nat)
  attempts : Nat
  maxFilled : Int
  bestState : StateMap
  top : List TopEntry

/-- Reassemble the live grid from the skeleton and an occupancy function. -/
def regrid (cx : Ctx) (occ : Nat → List Nat) : List IShift :=
  (List.range cx.gs.length).map (fun j => { skelAt cx j with occ := occ j })

/-- `sum(1 for s in self.schedule_grid if len(s.assigned_members) == 2)`. -/
def countFilled (cx : Ctx) (occ : Nat → List Nat) : Nat :=
  ((List.range cx.gs.length).filter (fun j => (occ j).length == 2)).length

/-- `_capture_state` on the live grid. -/
def capture (cx : Ctx) (occ : Nat → List Nat) : StateMap :=
  captureState cx.c.members (regrid cx occ)

/-- Whether some occupant anywhere in the grid carries name `n`
(membership in the leaf's `assigned_names` set). -/
def hasName (cx : Ctx) (occ : Nat → List Nat) (n : String) : Bool :=
  (List.range cx.gs.length).any (fun j =>
    (occ j).any (fun m => nameAt cx.c.members m == n))

/-- The leaf must-schedule check of `_backtrack`. -/
def mustOK (cx : Ctx) (occ : Nat → List Nat) : Bool :=
  cx.c.must_schedule.all (hasName cx occ)

/-- The leaf score of `_backtrack`: +5 per occupant whose shift's day is
among their preferred days. -/
def leafScore (cx : Ctx) (occ : Nat → List Nat) : Nat :=
  ((List.range cx.gs.length).map (fun j =>
    5 * ((occ j).filter (fun m =>
      (prefAt cx.c.members m).contains (skelAt cx j).day)).length)).sum

/-- `member.assigned_shifts.append(k)` on the assignment map. -/
def pushA (f : Nat → List (String × Nat)) (m : Nat) (k : String × Nat) :
    Nat → List (String × Nat) :=
  Function.update f m (f m ++ [k])

/-- `member.assigned_shifts.pop()` on the assignment map. -/
def popA (f : Nat → List (String × Nat)) (m : Nat) :
    Nat → List (String × Nat) :=
  Function.update f m ((f m).dropLast)

/-- The `max_filled_count` / `best_grid_state` update at the top of
`_backtrack` (the occupancy is unchanged, so recomputing `countFilled` on it
is the single `current_filled_count` of the source). -/
def updateBest (cx : Ctx) (s : SState) : SState :=
  if s.maxFilled < (countFilled cx s.occ : Int) then
    { s with maxFilled := (countFilled cx s.occ : Int),
             bestState := capture cx s.occ }
  else s

/-- The leaf handling of `_backtrack` once every shift is fully occupied:
must-schedule check, scoring, recording, and the 51-alternatives cut-off. -/
def backtrackLeaf (cx : Ctx) (s2 : SState) : Except SState SState :=
  if !(mustOK cx s2.occ) then .ok s2
  else
    let sc := leafScore cx s2.occ
    let s3 : SState := { s2 with top := s2.top ++
      [{ state := capture cx s2.occ, score := sc,
         description := "Full Schedule (Score: " ++ toString sc ++ ")" }] }
    if 51 ≤ s3.top.length then .error s3 else .ok s3

/-- The `for p in partners` loop of `_backtrack`: assign, recurse through the
continuation `k`, revert; an exception from below propagates and skips the
reverts, exactly like the Python `raise`. -/
def tryPartners (i : Nat) (key : String × Nat)
    (k : SState → Except SState SState) :
    List Nat → SState → Except SState SState
  | [], st => .ok st
  | p :: rest, st =>
    let st1 : SState := { st with
      occ := Function.update st.occ i (st.occ i ++ [p]),
      assigned := pushA st.assigned p key }
    match k st1 with
    | .error e => .error e
    | .ok st2 =>
      tryPartners i key k rest { st2 with
        occ := Function.update st2.occ i ((st2.occ i).dropLast),
        assigned := popA st2.assigned p }

/-- The `for p1, p2 in potential_pairs` loop of `_backtrack`. -/
def tryPairs (i : Nat) (key : String × Nat)
    (k : SState → Except SState SState) :
    List (Nat × Nat) → SState → Except SState SState
  | [], st => .ok st
  | pq :: rest, st =>
    let st1 : SState := { st with
      occ := Function.update st.occ i [pq.1, pq.2],
      assigned := pushA (pushA st.assigned pq.1 key) pq.2 key }
    match k st1 with
    | .error e => .error e
    | .ok st2 =>
      tryPairs i key k rest { st2 with
        occ := Function.update st2.occ i [],
        assigned := popA (popA st2.assigned pq.1) pq.2 }

/-- `_backtrack`.  `StopIteration` is the `.error` constructor, carrying the
state at the raise.  The fuel argument equals `gs.length + 1 - i` at every
call site, so the fuel-zero branch is unreachable (recursive calls only
occur at indices `i < gs.length`). -/
def backtrack (cx : Ctx) : Nat → Nat → SState → Except SState SState
  | 0, _, s => .ok s
  | fuel+1, i, s =>
    let s1 : SState := { s with attempts := s.attempts + 1 }
    if 1000000 < s1.attempts then .error s1 else
    let s2 := updateBest cx s1
    if countFilled cx s1.occ == cx.gs.length then backtrackLeaf cx s2
    else if cx.gs.length ≤ i then .ok s2
    else
      let sh := skelAt cx i
      if sh.locked && 2 ≤ (s2.occ i).length then
        backtrack cx fuel (i+1) s2
      else
        match s2.occ i with
        | [ex] =>
          tryPartners i (sh.day, sh.time_idx) (backtrack cx fuel (i+1))
            (validPartners cx.c s2.assigned sh.day sh.time_idx ex) s2
        | _ =>
          tryPairs i (sh.day, sh.time_idx) (backtrack cx fuel (i+1))
            ((validPairs cx.c s2.assigned sh.day sh.time_idx).insertionSort
              (fun a b => pairScore cx.c sh.day b ≤ pairScore cx.c sh.day a)) s2

/-- `_initialize_grid`. -/
def initializeGrid (active : List String) : List Shift :=
  active.flatMap (fun day => TIME_SLOTS.map (fun tl =>
    { day := day, time_idx := tl.2, time_label := tl.1 }))

/-- The lock-restoration pass at the top of `solve`: locked shifts keep the
occupants that resolve (by name) to roster members, as roster indices;
unlocked shifts are cleared. -/
def lockRestoredGrid (ms : List Member) (grid : List Shift) : List IShift :=
  grid.map (fun s =>
    { day := s.day, time_idx := s.time_idx, time_label := s.time_label,
      occ := if s.locked then
          s.assigned_members.filterMap (fun m => findIdxByName ms m.name)
        else [],
      locked := s.locked })

/-- What `solve` leaves behind: its return value, the grid
(`self.schedule_grid`, in its reordered final order), the members'
`assigned_shifts` lists, and the bookkeeping fields of `self`. -/
structure SolveResult where
  ret : Nat
  grid : List IShift
  assigned : Nat → List (String × Nat)
  top : List TopEntry
  bestState : StateMap
  maxFilled : Int
  attempts : Nat

/-- The `fully_locked` partition of `solve`. -/
def solveFully (c : Sched) (grid0 : List Shift) : List IShift :=
  (lockRestoredGrid c.members grid0).filter (fun s => s.locked && 2 ≤ s.occ.length)

/-- The `partially_locked + unlocked` list of `solve`. -/
def solveProcessable (c : Sched) (grid0 : List Shift) : List IShift :=
  (lockRestoredGrid c.members grid0).filter (fun s => s.locked && !(2 ≤ s.occ.length))
    ++ (lockRestoredGrid c.members grid0).filter (fun s => !s.locked)

/-- The reordered `self.schedule_grid`: fully-locked shifts first, then the
processable shifts stably sorted by ascending difficulty. -/
def solveOrdered (c : Sched) (grid0 : List Shift) : List IShift :=
  solveFully c grid0 ++
    (((solveProcessable c grid0).map
        (fun s => (getDifficulty c (derivedAssigned (lockRestoredGrid c.members grid0)) s, s))).insertionSort
      (fun a b => a.1 ≤ b.1)).map (fun x => x.2)

/-- The context of the `_backtrack` run issued by `solve`. -/
def solveCtx (c : Sched) (grid0 : List Shift) : Ctx :=
  { c := c, gs := solveOrdered c grid0 }

/-- `start_index` in `solve`. -/
def solveStart (c : Sched) (grid0 : List Shift) : Nat :=
  (solveFully c grid0).length

/-- The solver state just before `solve` calls `_backtrack`. -/
def solveInitState (c : Sched) (grid0 : List Shift) : SState :=
  { occ := fun j => (((solveOrdered c grid0)[j]?).map IShift.occ).getD [],
    assigned := derivedAssigned (lockRestoredGrid c.members grid0),
    attempts := 0, maxFilled := -1, bestState := [], top := [] }

/-- The state left behind by a `_backtrack` call whether it returned or
raised (the caught `StopIteration` leaves `self` as it stood at the raise). -/
def exceptState : Except SState SState → SState
  | .ok s => s
  | .error s => s

/-- The state `self` holds when the `try/except StopIteration` of `solve`
completes (normal return and caught raise leave the same fields behind). -/
def solveRaw (c : Sched) (grid0 : List Shift) : SState :=
  exceptState (backtrack (solveCtx c grid0)
    ((solveCtx c grid0).gs.length + 1 - solveStart c grid0)
    (solveStart c grid0) (solveInitState c grid0))

/-- `solve` on a configuration and a (pre-filled) grid: lock restoration,
partition, difficulty ordering, the backtracking run, and finalization. -/
def solveOn (c : Sched) (grid0 : List Shift) : SolveResult :=
  let cx := solveCtx c grid0
  let sF := solveRaw c grid0
  if sF.top.isEmpty then
    let fin := restoreState c.members (regrid cx sF.occ) sF.bestState
    { ret := 0, grid := fin.1, assigned := fin.2, top := [],
      bestState := sF.bestState, maxFilled := sF.maxFilled,
      attempts := sF.attempts }
  else
    let sortedTop := sF.top.insertionSort (fun a b => b.score ≤ a.score)
    let best := sortedTop.headD { state := [], score := 0, description := "" }
    let fin := restoreState c.members (regrid cx sF.occ) best.state
    { ret := sortedTop.length, grid := fin.1, assigned := fin.2,
      top := sortedTop, bestState := sF.bestState, maxFilled := sF.maxFilled,
      attempts := sF.attempts }

/-- The state `solve` passes to its final `restore_state` call: the best
sorted alternative when one exists, the best partial snapshot otherwise. -/
def solveChosenState (c : Sched) (grid0 : List Shift) : StateMap :=
  if (solveRaw c grid0).top.isEmpty then (solveRaw c grid0).bestState
  else (((solveRaw c grid0).top.insertionSort
      (fun a b => b.score ≤ a.score)).headD
    { state := [], score := 0, description := "" }).state

/-- `Scheduler(...)` construction followed by `solve()`, including the
`x if x else default` normalizations of `__init__` (`None` and the empty
list are both falsy, so both are the empty list here). -/
def solve (members : List Member) (active_days : List String)
    (pre_filled_grid : List Shift) (forbidden_pairs : List (String × String))
    (must_schedule never_schedule : List String) : SolveResult :=
  let ad := if active_days.isEmpty then ALL_DAYS else active_days
  let c : Sched := { members := members, active_days := ad,
                     forbidden_pairs := forbidden_pairs,
                     must_schedule := must_schedule,
                     never_schedule := never_schedule }
  let g0 := if pre_filled_grid.isEmpty then initializeGrid ad else pre_filled_grid
  solveOn c g0

/-- An accepted complete alternative: its stored fields come from capturing a
grid occupancy `o` that was complete (every shift fully occupied), passed the
must-schedule check, and satisfied the state invariant `Inv`. -/
def GoodEntry (cx : Ctx) (Inv : (Nat → List Nat) → Prop) (e : TopEntry) : Prop :=
  ∃ o, Inv o ∧ (∀ j < cx.gs.length, (o j).length = 2) ∧ mustOK cx o = true ∧
    e.state = capture cx o ∧ e.score = leafScore cx o

/-- The `best_grid_state` is the capture of an occupancy satisfying `Inv`
whose count of fully-occupied shifts is exactly `max_filled_count`. -/
def BestCap (cx : Ctx) (Inv : (Nat → List Nat) → Prop) (mf : Int)
    (bs : StateMap) : Prop :=
  ∃ o, Inv o ∧ bs = capture cx o ∧ (countFilled cx o : Int) = mf

/-- The `max_filled_count` / `best_grid_state` pair is either still at its
initial value or is a capture in the sense of `BestCap`. -/
def BestOK (cx : Ctx) (Inv : (Nat → List Nat) → Prop) (mf : Int)
    (bs : StateMap) : Prop :=
  (mf = -1 ∧ bs = []) ∨ BestCap cx Inv mf bs

/-- How one `_backtrack` call relates the best-snapshot pair on exit to the
pair on entry: either it now holds a capture, or it is untouched. -/
def BestStep (cx : Ctx) (Inv : (Nat → List Nat) → Prop) (s s' : SState) : Prop :=
  BestCap cx Inv s'.maxFilled s'.bestState ∨
    (s'.maxFilled = s.maxFilled ∧ s'.bestState = s.bestState)

/-- The baseline occupancy invariant: all occupants are roster indices. -/
def InvBase (ms : List Member) (o : Nat → List Nat) : Prop :=
  ∀ j, ∀ m ∈ o j, m < ms.length

/-- What a normally-returning `_backtrack` call guarantees relative to the
state it was given: occupancy fully reverted, `top_schedules` extended only
by accepted complete alternatives, bookkeeping within budget. -/
def StepOk (cx : Ctx) (Inv : (Nat → List Nat) → Prop) (s s' : SState) : Prop :=
  s'.occ = s.occ ∧
  (∃ t, s'.top = s.top ++ t ∧ ∀ e ∈ t, GoodEntry cx Inv e) ∧
  BestStep cx Inv s s' ∧
  s'.top.length ≤ 50 ∧ s'.attempts ≤ 1000000

/-- What a `_backtrack` call that raised `StopIteration` guarantees about
the state at the raise. -/
def StepErr (cx : Ctx) (Inv : (Nat → List Nat) → Prop) (s e : SState) : Prop :=
  Inv e.occ ∧
  (∃ t, e.top = s.top ++ t ∧ ∀ x ∈ t, GoodEntry cx Inv x) ∧
  BestStep cx Inv s e ∧
  e.top.length ≤ 51 ∧ e.attempts ≤ 1000001

/-- The invariants holding on entry to any `_backtrack` call. -/
def StepPre (cx : Ctx) (Inv : (Nat → List Nat) → Prop) (s : SState) : Prop :=
  Inv s.occ ∧ (∀ e ∈ s.top, GoodEntry cx Inv e) ∧
  BestOK cx Inv s.maxFilled s.bestState ∧
  s.top.length ≤ 50 ∧ s.attempts ≤ 1000000

/-- The two-sided contract of a `_backtrack` call. -/
def StepSpec (cx : Ctx) (Inv : (Nat → List Nat) → Prop) (s : SState) :
    Except SState SState → Prop
  | .ok s' => StepOk cx Inv s s'
  | .error e => StepErr cx Inv s e

/-- The keyword parameters accepted by `Scheduler.__init__`
(src/scheduler_core.py, lines 53-55). -/
def schedulerInitKeywords : List String :=
  ["members", "active_days", "pre_filled_grid", "forbidden_pairs",
   "must_schedule", "never_schedule"]

/-- The keyword arguments of the `core.Scheduler(...)` call issued by the
lock-and-reroll path of the surrounding application (src/app.py, lines
413-421), the path the spec describes as supplying a reference state. -/
def appRerollCallKeywords : List String :=
  ["active_days", "pre_filled_grid", "forbidden_pairs", "must_schedule",
   "never_schedule", "previous_state"]

/-- A Python call raises `TypeError` when it passes a keyword argument the
callee's signature does not accept. -/
def callRaisesTypeError (accepted passed : List String) : Bool :=
  passed.any (fun k => !(accepted.contains k))

/-- A member with no avoid flags and no overrides; the concrete scenarios
below are built from these. -/
def mkMember (n g : String) (av : List (String × List Nat))
    (pref : List String) : Member :=
  { name := n, gender := g, availability := av, avoid_opening := false,
    avoid_closing := false, preferred_days := pref, time_overrides := [] }

/-- Default solver-side shift value, used to take heads of concrete grids. -/
def dIShift : IShift :=
  { day := "", time_idx := 0, time_label := "", occ := [], locked := false }

/-- Default input-side shift value, used to take heads of concrete grids. -/
def dShift : Shift :=
  { day := "", time_idx := 0, time_label := "" }

/-- Two female members available on Monday's opening slot. -/
def femA : Member := mkMember "A" "Female" [("Monday", [0])] []

def femB : Member := mkMember "B" "Female" [("Monday", [0])] []

/-- A male member available on Monday's opening slot. -/
def maleM : Member := mkMember "M" "Male" [("Monday", [0])] []

/-- A pre-filled grid whose only shift is locked, needs-male (slot 0), and
holds two female occupants. -/
def c2grid : List Shift :=
  [{ day := "Monday", time_idx := 0, time_label := "10:30-11:30",
     assigned_members := [femA, femB], locked := true }]

def c2res : SolveResult := solve [femA, femB] ["Monday"] c2grid [] [] []

def c2wSched : Sched :=
  { members := [maleM, femA], active_days := ["Monday"], forbidden_pairs := [],
    must_schedule := [], never_schedule := [] }

def c2wGrid : List Shift :=
  [{ day := "Monday", time_idx := 0, time_label := "10:30-11:30",
     assigned_members := [maleM, femA], locked := true }]

/-- Four male members available on Monday slots 1 and 2. -/
def maleA : Member := mkMember "A" "Male" [("Monday", [1, 2])] []

def maleB : Member := mkMember "B" "Male" [("Monday", [1, 2])] []

def maleC : Member := mkMember "C" "Male" [("Monday", [1, 2])] []

def maleD : Member := mkMember "D" "Male" [("Monday", [1, 2])] []

def c3ms : List Member := [maleA, maleB, maleC, maleD]

/-- A grid whose two shifts carry the same `(day, time_idx)` key. -/
def c3grid : List Shift :=
  [{ day := "Monday", time_idx := 1, time_label := "11:30-12:30" },
   { day := "Monday", time_idx := 1, time_label := "11:30-12:30" }]

def c3res : SolveResult := solve c3ms ["Monday"] c3grid [] ["A"] []

def c3wSched : Sched :=
  { members := c3ms, active_days := ["Monday"], forbidden_pairs := [],
    must_schedule := ["A"], never_schedule := [] }

/-- The same two shifts with distinct `(day, time_idx)` keys. -/
def c3wGrid : List Shift :=
  [{ day := "Monday", time_idx := 1, time_label := "11:30-12:30" },
   { day := "Monday", time_idx := 2, time_label := "12:30-1:30" }]

/-- A locked pre-filled shift whose occupant `B` is also on the
never-schedule list of the `c4res` call. -/
def c4grid : List Shift :=
  [{ day := "Monday", time_idx := 1, time_label := "11:30-12:30",
     assigned_members := [maleB, maleC], locked := true }]

def c4res : SolveResult := solve [maleB, maleC] ["Monday"] c4grid [] [] ["B"]

def c4wSched : Sched :=
  { members := [maleA, maleB], active_days := ["Monday"], forbidden_pairs := [],
    must_schedule := [], never_schedule := ["Z"] }

def c4wGrid : List Shift :=
  [{ day := "Monday", time_idx := 1, time_label := "11:30-12:30" }]

/-- Members that appear in a locked pre-filled shift but not in the roster of
the `c5res` call. -/
def ghostX : Member := mkMember "X" "Male" [] []

def ghostY : Member := mkMember "Y" "Male" [] []

def c5grid : List Shift :=
  [{ day := "Monday", time_idx := 1, time_label := "11:30-12:30",
     assigned_members := [ghostX, ghostY], locked := true }]

def c5res : SolveResult := solve [] ["Monday"] c5grid [] [] []

def c5wSched : Sched :=
  { members := [maleA, maleB], active_days := ["Monday"], forbidden_pairs := [],
    must_schedule := [], never_schedule := [] }

def c5wGrid : List Shift :=
  [{ day := "Monday", time_idx := 1, time_label := "11:30-12:30",
     assigned_members := [maleA, maleB], locked := true }]

def c6ms : List Member := [maleA, maleB]

/-- A grid with a duplicated `(day, time_idx)` key and distinct occupants. -/
def c6grid : List IShift :=
  [{ day := "Monday", time_idx := 1, time_label := "11:30-12:30",
     occ := [0], locked := false },
   { day := "Monday", time_idx := 1, time_label := "11:30-12:30",
     occ := [1], locked := false }]

def c6wGrid : List IShift :=
  [{ day := "Monday", time_idx := 1, time_label := "11:30-12:30",
     occ := [0, 1], locked := false }]

/-- The occupancy invariant for claim C2: occupants are roster indices and
every fully-occupied needs-male position has a male occupant. -/
def InvMale (c : Sched) (g0 : List Shift) (o : Nat → List Nat) : Prop :=
  InvBase c.members o ∧
    ∀ j, IShift.needsMale (skelAt (solveCtx c g0) j) = true →
      2 ≤ (o j).length → ∃ m ∈ o j, genderAt c.members m = "Male"

/-- The occupancy invariant for claim C4: occupants are roster indices whose
names are outside `never_schedule`. -/
def InvNever (c : Sched) (o : Nat → List Nat) : Prop :=
  InvBase c.members o ∧
    ∀ j, ∀ m ∈ o j, c.never_schedule.contains (nameAt c.members m) = false

/-- The occupancy invariant for claim C5: occupants are roster indices and
every fully-locked position (the positions before `start_index`) still holds
its initial occupants. -/
def InvFrozen (c : Sched) (g0 : List Shift) (o : Nat → List Nat) : Prop :=
  InvBase c.members o ∧
    ∀ j < solveStart c g0, o j = (skelAt (solveCtx c g0) j).occ

/-! ### Name-resolution lemmas -/

theorem nameAt_eq_getElem {ms : List Member} {i : Nat} (hi : i < ms.length) :
    nameAt ms i = ms[i].name := by
  unfold nameAt
  rw [List.getElem?_eq_getElem hi]
  rfl

theorem findIdxByName_spec {ms : List Member} {n : String} {k : Nat}
    (h : findIdxByName ms n = some k) :
    k < ms.length ∧ nameAt ms k = n := by
  unfold findIdxByName at h
  rw [List.findIdx?_eq_some_iff_getElem] at h
  obtain ⟨hk, hp, -⟩ := h
  refine ⟨hk, ?_⟩
  rw [nameAt_eq_getElem hk]
  simpa using hp

theorem findIdxByName_isSome_of_mem {ms : List Member} {n : String}
    (h : ∃ m ∈ ms, m.name = n) : (findIdxByName ms n).isSome := by
  obtain ⟨m, hm, hn⟩ := h
  unfold findIdxByName
  rw [List.findIdx?_eq_some_of_exists ⟨m, hm, by simp [hn]⟩]
  rfl

theorem findIdxByName_nameAt_self {ms : List Member} {i : Nat}
    (hnd : (ms.map Member.name).Nodup) (hi : i < ms.length) :
    findIdxByName ms (nameAt ms i) = some i := by
  unfold findIdxByName
  rw [List.findIdx?_eq_some_iff_getElem]
  refine ⟨hi, by simp [nameAt_eq_getElem hi], ?_⟩
  intro j hji
  have hj : j < ms.length := Nat.lt_trans hji hi
  simp only [Bool.not_eq_true, beq_eq_false_iff_ne, ne_eq]
  intro hcontra
  rw [nameAt_eq_getElem hi] at hcontra
  have hj2 : j < (List.map Member.name ms).length := by simpa using hj
  have hi2 : i < (List.map Member.name ms).length := by simpa using hi
  have heq : (List.map Member.name ms)[j] = (List.map Member.name ms)[i] := by
    simp only [List.getElem_map]
    exact hcontra
  have := (List.Nodup.getElem_inj_iff hnd).mp heq
  omega

theorem findIdxByName_idem {ms : List Member} {n : String} {k : Nat}
    (h : findIdxByName ms n = some k) :
    findIdxByName ms (nameAt ms k) = some k := by
  rw [(findIdxByName_spec h).2]
  exact h

theorem map_nameAt_filterMap_resolve {ms : List Member} {names : List String}
    (h : ∀ n ∈ names, (findIdxByName ms n).isSome) :
    (names.filterMap (findIdxByName ms)).map (nameAt ms) = names := by
  induction names with
  | nil => rfl
  | cons n rest ih =>
    have hn := h n (by simp)
    obtain ⟨k, hk⟩ := Option.isSome_iff_exists.mp hn
    rw [List.filterMap_cons]
    rw [hk]
    simp only [List.map_cons]
    rw [(findIdxByName_spec hk).2, ih (fun x hx => h x (by simp [hx]))]

theorem length_filterMap_resolve {ms : List Member} {names : List String}
    (h : ∀ n ∈ names, (findIdxByName ms n).isSome) :
    (names.filterMap (findIdxByName ms)).length = names.length := by
  have := congrArg List.length (map_nameAt_filterMap_resolve h)
  simpa using this

theorem filterMap_resolve_lt {ms : List Member} {names : List String} {k : Nat}
    (hk : k ∈ names.filterMap (findIdxByName ms)) : k < ms.length := by
  rw [List.mem_filterMap] at hk
  obtain ⟨n, -, hn⟩ := hk
  exact (findIdxByName_spec hn).1

/-! ### Capture / stateGet lemmas -/

theorem stateGet_nil (k : String × Nat) : stateGet [] k = [] := rfl

theorem stateGet_concat (st : StateMap) (e : (String × Nat) × List String)
    (k : String × Nat) :
    stateGet (st ++ [e]) k = if e.1 == k then e.2 else stateGet st k := by
  simp only [stateGet, List.foldl_append, List.foldl_cons, List.foldl_nil]
  by_cases h : e.1 = k
  · simp [h]
  · simp [h]

theorem stateGet_mem_or_nil (st : StateMap) (k : String × Nat) :
    stateGet st k = [] ∨ ∃ e ∈ st, e.1 = k ∧ stateGet st k = e.2 := by
  induction st using List.reverseRecOn with
  | nil => exact Or.inl rfl
  | append_singleton st e ih =>
    rw [stateGet_concat]
    by_cases h : e.1 == k
    · simp only [h, if_true]
      exact Or.inr ⟨e, by simp, by simpa using h, rfl⟩
    · simp only [h, if_false]
      rcases ih with h1 | ⟨e', he', hk', hv'⟩
      · exact Or.inl h1
      · exact Or.inr ⟨e', by simp [he'], hk', hv'⟩

theorem captureState_append (ms : List Member) (g : List IShift) (s : IShift) :
    captureState ms (g ++ [s]) =
      captureState ms g ++ [((s.day, s.time_idx), s.occ.map (nameAt ms))] := by
  simp [captureState]

theorem stateGet_captureState (ms : List Member) (g : List IShift)
    (k : String × Nat) :
    stateGet (captureState ms g) k = [] ∨
      ∃ s ∈ g, (s.day, s.time_idx) = k ∧
        stateGet (captureState ms g) k = s.occ.map (nameAt ms) := by
  rcases stateGet_mem_or_nil (captureState ms g) k with h | ⟨e, he, hk, hv⟩
  · exact Or.inl h
  · unfold captureState at he
    rw [List.mem_map] at he
    obtain ⟨s, hs, rfl⟩ := he
    exact Or.inr ⟨s, hs, hk, hv⟩

theorem stateGet_captureState_unique {ms : List Member} {g : List IShift}
    (hnd : (g.map (fun s => (s.day, s.time_idx))).Nodup)
    {s : IShift} (hs : s ∈ g) :
    stateGet (captureState ms g) (s.day, s.time_idx) = s.occ.map (nameAt ms) := by
  induction g using List.reverseRecOn with
  | nil => cases hs
  | append_singleton g e ih =>
    rw [captureState_append, stateGet_concat]
    rw [List.mem_append] at hs
    simp only [List.map_append, List.nodup_append] at hnd
    rcases hs with hs | hs
    · have hne : ¬((e.day, e.time_idx) == (s.day, s.time_idx)) := by
        simp only [beq_iff_eq]
        intro hcontra
        have h1 : (s.day, s.time_idx) ∈ g.map (fun s => (s.day, s.time_idx)) :=
          List.mem_map_of_mem _ hs
        have h2 : (s.day, s.time_idx) ∈ [e].map (fun s => (s.day, s.time_idx)) := by
          simp [← hcontra]
        exact hnd.2.2 h1 h2
      rw [if_neg hne]
      exact ih hnd.1 hs
    · simp only [List.mem_singleton] at hs
      subst hs
      simp

/-! ### Grid reassembly and restore lemmas -/

theorem length_regrid (cx : Ctx) (o : Nat → List Nat) :
    (regrid cx o).length = cx.gs.length := by
  simp [regrid]

theorem mem_regrid {cx : Ctx} {o : Nat → List Nat} {s : IShift} :
    s ∈ regrid cx o ↔ ∃ j < cx.gs.length, s = { skelAt cx j with occ := o j } := by
  unfold regrid
  rw [List.mem_map]
  constructor
  · rintro ⟨j, hj, rfl⟩
    exact ⟨j, List.mem_range.mp hj, rfl⟩
  · rintro ⟨j, hj, rfl⟩
    exact ⟨j, List.mem_range.mpr hj, rfl⟩

theorem length_restoreGrid (ms : List Member) (g : List IShift) (st : StateMap) :
    (restoreGrid ms g st).length = g.length := by
  simp [restoreGrid]

theorem mem_restoreGrid {ms : List Member} {g : List IShift} {st : StateMap}
    {s' : IShift} :
    s' ∈ restoreGrid ms g st ↔ ∃ s ∈ g,
      s' = { s with occ := (stateGet st (s.day, s.time_idx)).filterMap (findIdxByName ms) } := by
  unfold restoreGrid
  rw [List.mem_map]
  constructor
  · rintro ⟨s, hs, rfl⟩
    exact ⟨s, hs, rfl⟩
  · rintro ⟨s, hs, rfl⟩
    exact ⟨s, hs, rfl⟩

theorem all_filled_of_countFilled_eq {cx : Ctx} {o : Nat → List Nat}
    (h : countFilled cx o = cx.gs.length) :
    ∀ j < cx.gs.length, (o j).length = 2 := by
  unfold countFilled at h
  have hsub : ((List.range cx.gs.length).filter
      (fun j => (o j).length == 2)).Sublist (List.range cx.gs.length) :=
    List.filter_sublist _
  have heq := hsub.eq_of_length (by rw [h, List.length_range])
  intro j hj
  have hjmem : j ∈ List.range cx.gs.length := List.mem_range.mpr hj
  rw [← heq] at hjmem
  have := List.of_mem_filter hjmem
  simpa using this

/-! ### Mutation helper lemmas -/

theorem update_restore {α : Type _} [DecidableEq α] {β : Type _}
    (f : α → β) (a : α) (v : β) :
    Function.update (Function.update f a v) a (f a) = f := by
  rw [Function.update_idem, Function.update_eq_self]

theorem updateBest_occ (cx : Ctx) (s : SState) :
    (updateBest cx s).occ = s.occ := by
  unfold updateBest; split <;> rfl

theorem updateBest_assigned (cx : Ctx) (s : SState) :
    (updateBest cx s).assigned = s.assigned := by
  unfold updateBest; split <;> rfl

theorem updateBest_top (cx : Ctx) (s : SState) :
    (updateBest cx s).top = s.top := by
  unfold updateBest; split <;> rfl

theorem updateBest_attempts (cx : Ctx) (s : SState) :
    (updateBest cx s).attempts = s.attempts := by
  unfold updateBest; split <;> rfl

theorem updateBest_cap {cx : Ctx} {Inv : (Nat → List Nat) → Prop} {s : SState}
    (hInv : Inv s.occ) (hbest : BestOK cx Inv s.maxFilled s.bestState) :
    BestCap cx Inv (updateBest cx s).maxFilled (updateBest cx s).bestState := by
  unfold updateBest
  split
  · exact ⟨s.occ, hInv, rfl, rfl⟩
  · next hcond =>
    rcases hbest with ⟨h1, -⟩ | hc
    · exfalso
      rw [h1] at hcond
      have h0 : (0 : Int) ≤ (countFilled cx s.occ : Int) := Int.natCast_nonneg _
      omega
    · exact hc

theorem updateBest_best {cx : Ctx} {Inv : (Nat → List Nat) → Prop} {s : SState}
    (hInv : Inv s.occ) (hbest : BestOK cx Inv s.maxFilled s.bestState) :
    BestOK cx Inv (updateBest cx s).maxFilled (updateBest cx s).bestState :=
  Or.inr (updateBest_cap hInv hbest)

theorem BestStep_trans {cx : Ctx} {Inv : (Nat → List Nat) → Prop}
    {s s3 s' : SState} (h1 : BestStep cx Inv s s3)
    (h2 : BestStep cx Inv s3 s') : BestStep cx Inv s s' := by
  rcases h2 with h2 | ⟨hm, hb⟩
  · exact Or.inl h2
  · rcases h1 with h1 | ⟨hm1, hb1⟩
    · refine Or.inl ?_
      rw [hm, hb]
      exact h1
    · exact Or.inr ⟨hm.trans hm1, hb.trans hb1⟩

theorem BestOK_of_BestStep {cx : Ctx} {Inv : (Nat → List Nat) → Prop}
    {s s' : SState} (h : BestStep cx Inv s s')
    (hs : BestOK cx Inv s.maxFilled s.bestState) :
    BestOK cx Inv s'.maxFilled s'.bestState := by
  rcases h with h | ⟨hm, hb⟩
  · exact Or.inr h
  · rw [hm, hb]
    exact hs

theorem bestCap_of_spec {cx : Ctx} {Inv : (Nat → List Nat) → Prop}
    {s2 : SState} {r : Except SState SState}
    (h : StepSpec cx Inv s2 r)
    (hcap : BestCap cx Inv s2.maxFilled s2.bestState) :
    BestCap cx Inv (exceptState r).maxFilled (exceptState r).bestState := by
  cases r with
  | ok s' =>
    obtain ⟨-, -, h3, -, -⟩ := h
    rcases h3 with h3 | ⟨hm, hb⟩
    · exact h3
    · show BestCap cx Inv s'.maxFilled s'.bestState
      rw [hm, hb]
      exact hcap
  | error e =>
    obtain ⟨-, -, h3, -, -⟩ := h
    rcases h3 with h3 | ⟨hm, hb⟩
    · exact h3
    · show BestCap cx Inv e.maxFilled e.bestState
      rw [hm, hb]
      exact hcap

theorem StepSpec_extend {cx : Ctx} {Inv : (Nat → List Nat) → Prop}
    {s s3 : SState} {r : Except SState SState} (t : List TopEntry)
    (h : StepSpec cx Inv s3 r) (hocc : s3.occ = s.occ)
    (htop3 : s3.top = s.top ++ t) (hg : ∀ e ∈ t, GoodEntry cx Inv e)
    (hbs : BestStep cx Inv s s3) :
    StepSpec cx Inv s r := by
  cases r with
  | ok s' =>
    obtain ⟨h1, ⟨u, hu, hgu⟩, h3, h4, h5⟩ := h
    refine ⟨h1.trans hocc, ⟨t ++ u, ?_, ?_⟩, BestStep_trans hbs h3, h4, h5⟩
    · rw [hu, htop3, List.append_assoc]
    · intro e he
      rcases List.mem_append.mp he with he | he
      · exact hg e he
      · exact hgu e he
  | error e =>
    obtain ⟨h1, ⟨u, hu, hgu⟩, h3, h4, h5⟩ := h
    refine ⟨h1, ⟨t ++ u, ?_, ?_⟩, BestStep_trans hbs h3, h4, h5⟩
    · rw [hu, htop3, List.append_assoc]
    · intro x hx
      rcases List.mem_append.mp hx with hx | hx
      · exact hg x hx
      · exact hgu x hx

/-! ### The leaf contract -/

theorem backtrackLeaf_spec {cx : Ctx} {Inv : (Nat → List Nat) → Prop}
    {s2 : SState} (hpre : StepPre cx Inv s2)
    (hfill : countFilled cx s2.occ = cx.gs.length) :
    StepSpec cx Inv s2 (backtrackLeaf cx s2) := by
  obtain ⟨hInv, htop, hbest, hlen, hatt⟩ := hpre
  unfold backtrackLeaf
  by_cases hmust : mustOK cx s2.occ
  · rw [if_neg (by simp [hmust])]
    have hgood : GoodEntry cx Inv
        { state := capture cx s2.occ, score := leafScore cx s2.occ,
          description := "Full Schedule (Score: "
            ++ toString (leafScore cx s2.occ) ++ ")" } :=
      ⟨s2.occ, hInv, all_filled_of_countFilled_eq hfill, hmust, rfl, rfl⟩
    by_cases hcut : 51 ≤ s2.top.length + 1
    · rw [if_pos (by simpa using hcut)]
      exact ⟨hInv, ⟨_, rfl, by simpa using hgood⟩, Or.inr ⟨rfl, rfl⟩,
        by simpa using Nat.add_le_add_right hlen 1, Nat.le_trans hatt (by omega)⟩
    · rw [if_neg (by simpa using hcut)]
      refine ⟨rfl, ⟨_, rfl, by simpa using hgood⟩, Or.inr ⟨rfl, rfl⟩, ?_, hatt⟩
      simpa using Nat.lt_succ_iff.mp (Nat.lt_of_not_le hcut)
  · rw [if_pos (by simp [hmust])]
    exact ⟨rfl, ⟨[], by simp, by simp⟩, Or.inr ⟨rfl, rfl⟩, hlen, hatt⟩

/-! ### The loop contracts -/

theorem tryPartners_master (cx : Ctx) (Inv : (Nat → List Nat) → Prop)
    (i : Nat) (key : String × Nat) (k : SState → Except SState SState)
    (o0 : Nat → List Nat) :
    ∀ ps : List Nat,
      (∀ p ∈ ps, Inv (Function.update o0 i (o0 i ++ [p]))) →
      (∀ p ∈ ps, ∀ st1 : SState,
        st1.occ = Function.update o0 i (o0 i ++ [p]) →
        StepPre cx Inv st1 → StepSpec cx Inv st1 (k st1)) →
      ∀ st : SState, st.occ = o0 → StepPre cx Inv st →
        StepSpec cx Inv st (tryPartners i key k ps st) := by
  intro ps
  induction ps with
  | nil =>
    intro _ _ st hocc hpre
    obtain ⟨hInv, htop, hbest, hlen, hatt⟩ := hpre
    exact ⟨rfl, ⟨[], by simp, by simp⟩, Or.inr ⟨rfl, rfl⟩, hlen, hatt⟩
  | cons p rest ih =>
    intro Hmut Hk st hocc hpre
    obtain ⟨hInv, htop, hbest, hlen, hatt⟩ := hpre
    rw [tryPartners]
    have hocc1 : (Function.update st.occ i (st.occ i ++ [p]))
        = Function.update o0 i (o0 i ++ [p]) := by rw [hocc]
    have hpre1 : StepPre cx Inv { st with
        occ := Function.update st.occ i (st.occ i ++ [p]),
        assigned := pushA st.assigned p key } := by
      refine ⟨?_, htop, hbest, hlen, hatt⟩
      show Inv (Function.update st.occ i (st.occ i ++ [p]))
      rw [hocc1]
      exact Hmut p (by simp)
    have hkspec := Hk p (by simp) _ hocc1 hpre1
    cases hkr : k { st with
        occ := Function.update st.occ i (st.occ i ++ [p]),
        assigned := pushA st.assigned p key } with
    | error e =>
      rw [hkr] at hkspec
      obtain ⟨h1, ⟨u, hu, hgu⟩, h3, h4, h5⟩ := hkspec
      show StepErr cx Inv st e
      refine ⟨h1, ⟨u, ?_, hgu⟩, h3, h4, h5⟩
      · show e.top = st.top ++ u
        exact hu
    | ok st2 =>
      rw [hkr] at hkspec
      obtain ⟨h1, ⟨u, hu, hgu⟩, h3, h4, h5⟩ := hkspec
      have hu' : st2.top = st.top ++ u := hu
      have hocc2 : (Function.update st2.occ i ((st2.occ i).dropLast)) = o0 := by
        rw [h1]
        show Function.update (Function.update st.occ i (st.occ i ++ [p])) i
          (((Function.update st.occ i (st.occ i ++ [p])) i).dropLast) = o0
        rw [Function.update_same, List.dropLast_concat, update_restore, hocc]
      have htop2 : ∀ e ∈ st2.top, GoodEntry cx Inv e := by
        intro e he
        rw [hu'] at he
        rcases List.mem_append.mp he with h | h
        · exact htop e h
        · exact hgu e h
      have hInv3 : Inv (Function.update st2.occ i ((st2.occ i).dropLast)) := by
        rw [hocc2, ← hocc]; exact hInv
      have hres := ih (fun q hq => Hmut q (List.mem_cons_of_mem _ hq))
        (fun q hq => Hk q (List.mem_cons_of_mem _ hq))
        { st2 with occ := Function.update st2.occ i ((st2.occ i).dropLast),
                   assigned := popA st2.assigned p }
        hocc2 ⟨hInv3, htop2, BestOK_of_BestStep h3 hbest, h4, h5⟩
      show StepSpec cx Inv st (tryPartners i key k rest
        { st2 with occ := Function.update st2.occ i ((st2.occ i).dropLast),
                   assigned := popA st2.assigned p })
      refine StepSpec_extend _ hres ?_ ?_ hgu h3
      · show Function.update st2.occ i ((st2.occ i).dropLast) = st.occ
        rw [hocc2, hocc]
      · show st2.top = st.top ++ u
        exact hu'

theorem tryPairs_master (cx : Ctx) (Inv : (Nat → List Nat) → Prop)
    (i : Nat) (key : String × Nat) (k : SState → Except SState SState)
    (o0 : Nat → List Nat) (hnil : o0 i = []) :
    ∀ ps : List (Nat × Nat),
      (∀ pq ∈ ps, Inv (Function.update o0 i [pq.1, pq.2])) →
      (∀ pq ∈ ps, ∀ st1 : SState,
        st1.occ = Function.update o0 i [pq.1, pq.2] →
        StepPre cx Inv st1 → StepSpec cx Inv st1 (k st1)) →
      ∀ st : SState, st.occ = o0 → StepPre cx Inv st →
        StepSpec cx Inv st (tryPairs i key k ps st) := by
  intro ps
  induction ps with
  | nil =>
    intro _ _ st hocc hpre
    obtain ⟨hInv, htop, hbest, hlen, hatt⟩ := hpre
    exact ⟨rfl, ⟨[], by simp, by simp⟩, Or.inr ⟨rfl, rfl⟩, hlen, hatt⟩
  | cons pq rest ih =>
    intro Hmut Hk st hocc hpre
    obtain ⟨hInv, htop, hbest, hlen, hatt⟩ := hpre
    rw [tryPairs]
    have hocc1 : (Function.update st.occ i [pq.1, pq.2])
        = Function.update o0 i [pq.1, pq.2] := by rw [hocc]
    have hpre1 : StepPre cx Inv { st with
        occ := Function.update st.occ i [pq.1, pq.2],
        assigned := pushA (pushA st.assigned pq.1 key) pq.2 key } := by
      refine ⟨?_, htop, hbest, hlen, hatt⟩
      show Inv (Function.update st.occ i [pq.1, pq.2])
      rw [hocc1]
      exact Hmut pq (by simp)
    have hkspec := Hk pq (by simp) _ hocc1 hpre1
    cases hkr : k { st with
        occ := Function.update st.occ i [pq.1, pq.2],
        assigned := pushA (pushA st.assigned pq.1 key) pq.2 key } with
    | error e =>
      rw [hkr] at hkspec
      obtain ⟨h1, ⟨u, hu, hgu⟩, h3, h4, h5⟩ := hkspec
      show StepErr cx Inv st e
      refine ⟨h1, ⟨u, ?_, hgu⟩, h3, h4, h5⟩
      show e.top = st.top ++ u
      exact hu
    | ok st2 =>
      rw [hkr] at hkspec
      obtain ⟨h1, ⟨u, hu, hgu⟩, h3, h4, h5⟩ := hkspec
      have hu' : st2.top = st.top ++ u := hu
      have hocc2 : (Function.update st2.occ i []) = o0 := by
        rw [h1]
        show Function.update (Function.update st.occ i [pq.1, pq.2]) i [] = o0
        rw [Function.update_idem, ← hnil, hocc]
        exact Function.update_eq_self i o0
      have htop2 : ∀ e ∈ st2.top, GoodEntry cx Inv e := by
        intro e he
        rw [hu'] at he
        rcases List.mem_append.mp he with h | h
        · exact htop e h
        · exact hgu e h
      have hInv3 : Inv (Function.update st2.occ i []) := by
        rw [hocc2, ← hocc]; exact hInv
      have hres := ih (fun q hq => Hmut q (List.mem_cons_of_mem _ hq))
        (fun q hq => Hk q (List.mem_cons_of_mem _ hq))
        { st2 with occ := Function.update st2.occ i [],
                   assigned := popA (popA st2.assigned pq.1) pq.2 }
        hocc2 ⟨hInv3, htop2, BestOK_of_BestStep h3 hbest, h4, h5⟩
      show StepSpec cx Inv st (tryPairs i key k rest
        { st2 with occ := Function.update st2.occ i [],
                   assigned := popA (popA st2.assigned pq.1) pq.2 })
      refine StepSpec_extend _ hres ?_ ?_ hgu h3
      · show Function.update st2.occ i [] = st.occ
        rw [hocc2, hocc]
      · show st2.top = st.top ++ u
        exact hu'

theorem mem_of_mem_insertionSort {α : Type _} {r : α → α → Prop}
    [DecidableRel r] {l : List α} {x : α} (h : x ∈ l.insertionSort r) :
    x ∈ l :=
  (List.perm_insertionSort r l).mem_iff.mp h

theorem backtrack_master (cx : Ctx) (start : Nat)
    (Inv : (Nat → List Nat) → Prop)
    (Hpairs : ∀ (o : Nat → List Nat) (asg : Nat → List (String × Nat))
      (i : Nat) (pq : Nat × Nat), Inv o → start ≤ i → i < cx.gs.length →
      pq ∈ validPairs cx.c asg (skelAt cx i).day (skelAt cx i).time_idx →
      Inv (Function.update o i [pq.1, pq.2]))
    (Hpartner : ∀ (o : Nat → List Nat) (asg : Nat → List (String × Nat))
      (i ex p : Nat), Inv o → start ≤ i → i < cx.gs.length → o i = [ex] →
      p ∈ validPartners cx.c asg (skelAt cx i).day (skelAt cx i).time_idx ex →
      Inv (Function.update o i [ex, p])) :
    ∀ (fuel i : Nat) (s : SState), start ≤ i →
      (∀ j, i ≤ j → j < cx.gs.length → (s.occ j).length ≤ 1) →
      StepPre cx Inv s →
      StepSpec cx Inv s (backtrack cx fuel i s) ∧
        (1 ≤ fuel → s.attempts < 1000000 →
          BestCap cx Inv (exceptState (backtrack cx fuel i s)).maxFilled
            (exceptState (backtrack cx fuel i s)).bestState) := by
  intro fuel
  induction fuel with
  | zero =>
    intro i s _ _ hpre
    obtain ⟨hInv, htop, hbest, hlen, hatt⟩ := hpre
    exact ⟨⟨rfl, ⟨[], by simp, by simp⟩, Or.inr ⟨rfl, rfl⟩, hlen, hatt⟩,
      fun h => absurd h (by omega)⟩
  | succ fuel ih =>
    intro i s hsi hfut hpre
    obtain ⟨hInv, htop, hbest, hlen, hatt⟩ := hpre
    simp only [backtrack]
    by_cases hover : 1000000 < s.attempts + 1
    · rw [if_pos hover]
      refine ⟨⟨hInv, ⟨[], by simp, by simp⟩, Or.inr ⟨rfl, rfl⟩,
        Nat.le_trans hlen (by norm_num), Nat.succ_le_succ hatt⟩, ?_⟩
      intro _ hattlt
      exfalso
      omega
    · rw [if_neg hover]
      have hatt1 : s.attempts + 1 ≤ 1000000 := by omega
      have hpre2 : StepPre cx Inv
          (updateBest cx { s with attempts := s.attempts + 1 }) := by
        refine ⟨?_, ?_, ?_, ?_, ?_⟩
        · rw [updateBest_occ]; exact hInv
        · rw [updateBest_top]; exact htop
        · exact updateBest_best hInv hbest
        · rw [updateBest_top]; exact hlen
        · rw [updateBest_attempts]; exact hatt1
      have hcap2 : BestCap cx Inv
          (updateBest cx { s with attempts := s.attempts + 1 }).maxFilled
          (updateBest cx { s with attempts := s.attempts + 1 }).bestState :=
        updateBest_cap hInv hbest
      by_cases hleaf : countFilled cx s.occ = cx.gs.length
      · rw [if_pos (by simpa using hleaf)]
        have hspec := backtrackLeaf_spec hpre2
          (by rw [updateBest_occ]; exact hleaf)
        refine ⟨StepSpec_extend [] hspec
          (by rw [updateBest_occ]) (by rw [updateBest_top]; simp) (by simp)
          (Or.inl hcap2), ?_⟩
        intro _ _
        exact bestCap_of_spec hspec hcap2
      · rw [if_neg (by simpa using hleaf)]
        by_cases hend : cx.gs.length ≤ i
        · rw [if_pos hend]
          refine ⟨⟨?_, ⟨[], ?_, by simp⟩, Or.inl hcap2, ?_, ?_⟩,
            fun _ _ => hcap2⟩
          · rw [updateBest_occ]
          · rw [updateBest_top]; simp
          · rw [updateBest_top]; exact hlen
          · rw [updateBest_attempts]; exact hatt1
        · rw [if_neg hend]
          have hin : i < cx.gs.length := Nat.lt_of_not_le hend
          have hlow : ((updateBest cx
              { s with attempts := s.attempts + 1 }).occ i).length ≤ 1 := by
            rw [updateBest_occ]; exact hfut i le_rfl hin
          rw [if_neg (by
            simp only [Bool.and_eq_true, decide_eq_true_eq]
            rintro ⟨-, h2⟩
            omega)]
          rcases hocc_i : (updateBest cx
              { s with attempts := s.attempts + 1 }).occ i with _ | ⟨ex, _ | ⟨b, tail⟩⟩
          · -- empty shift: the pair loop
            have hocc_i' : s.occ i = [] := by
              have h := hocc_i
              rw [updateBest_occ] at h
              exact h
            have hmut : ∀ pq ∈ ((validPairs cx.c
                (updateBest cx { s with attempts := s.attempts + 1 }).assigned
                (skelAt cx i).day (skelAt cx i).time_idx).insertionSort
                  (fun a b => pairScore cx.c (skelAt cx i).day b ≤
                    pairScore cx.c (skelAt cx i).day a)),
                Inv (Function.update s.occ i [pq.1, pq.2]) := by
              intro pq hpq
              exact Hpairs s.occ _ i pq hInv hsi hin (mem_of_mem_insertionSort hpq)
            have hk : ∀ pq ∈ ((validPairs cx.c
                (updateBest cx { s with attempts := s.attempts + 1 }).assigned
                (skelAt cx i).day (skelAt cx i).time_idx).insertionSort
                  (fun a b => pairScore cx.c (skelAt cx i).day b ≤
                    pairScore cx.c (skelAt cx i).day a)),
                ∀ st1 : SState,
                st1.occ = Function.update s.occ i [pq.1, pq.2] →
                StepPre cx Inv st1 →
                StepSpec cx Inv st1 (backtrack cx fuel (i+1) st1) := by
              intro pq _ st1 hst1occ hpre1
              refine (ih (i+1) st1 (Nat.le_trans hsi (Nat.le_succ i)) ?_ hpre1).1
              intro j hj hjn
              rw [hst1occ, Function.update_noteq (by omega)]
              exact hfut j (by omega) hjn
            have hspec := tryPairs_master cx Inv i
              ((skelAt cx i).day, (skelAt cx i).time_idx)
              (backtrack cx fuel (i+1)) s.occ hocc_i' _ hmut hk
              (updateBest cx { s with attempts := s.attempts + 1 })
              (updateBest_occ _ _) hpre2
            exact ⟨StepSpec_extend [] hspec (by rw [updateBest_occ])
                (by rw [updateBest_top]; simp) (by simp) (Or.inl hcap2),
              fun _ _ => bestCap_of_spec hspec hcap2⟩
          · -- one existing occupant: the partner loop
            have hocc_i' : s.occ i = [ex] := by
              have h := hocc_i
              rw [updateBest_occ] at h
              exact h
            have hmut : ∀ p ∈ (validPartners cx.c
                (updateBest cx { s with attempts := s.attempts + 1 }).assigned
                (skelAt cx i).day (skelAt cx i).time_idx ex),
                Inv (Function.update s.occ i (s.occ i ++ [p])) := by
              intro p hp
              have hform : s.occ i ++ [p] = [ex, p] := by rw [hocc_i']; rfl
              rw [hform]
              exact Hpartner s.occ _ i ex p hInv hsi hin hocc_i' hp
            have hk : ∀ p ∈ (validPartners cx.c
                (updateBest cx { s with attempts := s.attempts + 1 }).assigned
                (skelAt cx i).day (skelAt cx i).time_idx ex),
                ∀ st1 : SState,
                st1.occ = Function.update s.occ i (s.occ i ++ [p]) →
                StepPre cx Inv st1 →
                StepSpec cx Inv st1 (backtrack cx fuel (i+1) st1) := by
              intro p _ st1 hst1occ hpre1
              refine (ih (i+1) st1 (Nat.le_trans hsi (Nat.le_succ i)) ?_ hpre1).1
              intro j hj hjn
              rw [hst1occ, Function.update_noteq (by omega)]
              exact hfut j (by omega) hjn
            have hspec := tryPartners_master cx Inv i
              ((skelAt cx i).day, (skelAt cx i).time_idx)
              (backtrack cx fuel (i+1)) s.occ _ hmut hk
              (updateBest cx { s with attempts := s.attempts + 1 })
              (updateBest_occ _ _) hpre2
            exact ⟨StepSpec_extend [] hspec (by rw [updateBest_occ])
                (by rw [updateBest_top]; simp) (by simp) (Or.inl hcap2),
              fun _ _ => bestCap_of_spec hspec hcap2⟩
          · -- impossible: an unprocessed shift with two or more occupants
            exfalso
            rw [hocc_i] at hlow
            simp at hlow

/-! ### Membership facts about the candidate computations -/

theorem mem_workingIdx {c : Sched} {i : Nat} (h : i ∈ workingIdx c) :
    i < c.members.length ∧
      ¬(c.never_schedule.contains (nameAt c.members i) = true) := by
  unfold workingIdx at h
  rw [List.mem_filter] at h
  exact ⟨List.mem_range.mp h.1, by simpa using h.2⟩

theorem mem_combinations2 {α : Type _} {l : List α} {p : α × α}
    (h : p ∈ combinations2 l) : p.1 ∈ l ∧ p.2 ∈ l := by
  induction l with
  | nil => cases h
  | cons x xs ih =>
    rw [combinations2, List.mem_append] at h
    rcases h with h | h
    · rw [List.mem_map] at h
      obtain ⟨y, hy, rfl⟩ := h
      exact ⟨by simp, by simp [hy]⟩
    · have := ih h
      exact ⟨List.mem_cons_of_mem _ this.1, List.mem_cons_of_mem _ this.2⟩

theorem validPairs_mem {c : Sched} {asg : Nat → List (String × Nat)}
    {day : String} {t : Nat} {pq : Nat × Nat}
    (h : pq ∈ validPairs c asg day t) :
    pq.1 ∈ workingIdx c ∧ pq.2 ∈ workingIdx c ∧
      ((t == 0 || t == 3) = true →
        genderAt c.members pq.1 = "Male" ∨ genderAt c.members pq.2 = "Male") := by
  unfold validPairs at h
  rw [List.mem_filter] at h
  obtain ⟨hmem, hpred⟩ := h
  have hav := mem_combinations2 hmem
  have h1 : pq.1 ∈ workingIdx c := (List.mem_filter.mp hav.1).1
  have h2 : pq.2 ∈ workingIdx c := (List.mem_filter.mp hav.2).1
  refine ⟨h1, h2, ?_⟩
  intro ht
  rw [Bool.and_eq_true] at hpred
  have := hpred.2
  rw [ht] at this
  simp only [Bool.not_true, Bool.false_or, Bool.or_eq_true, beq_iff_eq] at this
  exact this

theorem validPartners_mem {c : Sched} {asg : Nat → List (String × Nat)}
    {day : String} {t cur j : Nat}
    (h : j ∈ validPartners c asg day t cur) :
    j ∈ workingIdx c ∧
      ((t == 0 || t == 3) = true →
        genderAt c.members cur = "Male" ∨ genderAt c.members j = "Male") := by
  unfold validPartners at h
  have h' := mem_of_mem_insertionSort h
  rw [List.mem_filter] at h'
  obtain ⟨hmem, hpred⟩ := h'
  rw [List.mem_filter] at hmem
  refine ⟨hmem.1, ?_⟩
  intro ht
  rw [Bool.and_eq_true] at hpred
  have := hpred.2
  rw [ht] at this
  simp only [Bool.not_true, Bool.false_or, Bool.or_eq_true, beq_iff_eq] at this
  exact this

/-! ### Facts about the initial solver state -/

theorem occ_lt_of_mem_lockRestoredGrid {ms : List Member} {g0 : List Shift}
    {x : IShift} (h : x ∈ lockRestoredGrid ms g0) :
    ∀ m ∈ x.occ, m < ms.length := by
  unfold lockRestoredGrid at h
  rw [List.mem_map] at h
  obtain ⟨s, -, rfl⟩ := h
  intro m hm
  simp only at hm
  split at hm
  · rw [List.mem_filterMap] at hm
    obtain ⟨a, -, ha⟩ := hm
    exact (findIdxByName_spec ha).1
  · cases hm

theorem mem_solveOrdered_sub {c : Sched} {g0 : List Shift} {x : IShift}
    (h : x ∈ solveOrdered c g0) : x ∈ lockRestoredGrid c.members g0 := by
  unfold solveOrdered at h
  rw [List.mem_append] at h
  rcases h with h | h
  · exact List.mem_of_mem_filter h
  · rw [List.mem_map] at h
    obtain ⟨pr, hpr, rfl⟩ := h
    have hpr' := mem_of_mem_insertionSort hpr
    rw [List.mem_map] at hpr'
    obtain ⟨y, hy, rfl⟩ := hpr'
    unfold solveProcessable at hy
    rw [List.mem_append] at hy
    rcases hy with hy | hy
    · exact List.mem_of_mem_filter hy
    · exact List.mem_of_mem_filter hy

theorem mem_solveProcessable_occ_le {c : Sched} {g0 : List Shift} {x : IShift}
    (h : x ∈ solveProcessable c g0) : x.occ.length ≤ 1 := by
  unfold solveProcessable at h
  rw [List.mem_append] at h
  rcases h with h | h
  · have := List.of_mem_filter h
    rw [Bool.and_eq_true] at this
    have h2 := this.2
    simp only [Bool.not_eq_true', decide_eq_false_iff_not] at h2
    omega
  · have hpred := List.of_mem_filter h
    have hmem := List.mem_of_mem_filter h
    unfold lockRestoredGrid at hmem
    rw [List.mem_map] at hmem
    obtain ⟨s, -, rfl⟩ := hmem
    simp only [Bool.not_eq_true'] at hpred
    simp only [hpred]
    simp

theorem solveInit_occ_cases (c : Sched) (g0 : List Shift) (j : Nat) :
    (solveInitState c g0).occ j = [] ∨
      ∃ x ∈ solveOrdered c g0, (solveInitState c g0).occ j = x.occ := by
  by_cases hj : j < (solveOrdered c g0).length
  · refine Or.inr ⟨(solveOrdered c g0)[j], List.getElem_mem hj, ?_⟩
    show (((solveOrdered c g0)[j]?).map IShift.occ).getD [] = _
    rw [List.getElem?_eq_getElem hj]
    rfl
  · refine Or.inl ?_
    show (((solveOrdered c g0)[j]?).map IShift.occ).getD [] = []
    rw [List.getElem?_eq_none (by omega)]
    rfl

theorem mem_append_right_of_getElem {α : Type _} (l1 l2 : List α) (j : Nat)
    (hj : l1.length ≤ j) (hlen : j < (l1 ++ l2).length) :
    (l1 ++ l2)[j] ∈ l2 := by
  rw [List.getElem_append_right hj]
  exact List.getElem_mem _

theorem solveInit_occ_after (c : Sched) (g0 : List Shift) :
    ∀ j, solveStart c g0 ≤ j → j < (solveOrdered c g0).length →
      ((solveInitState c g0).occ j).length ≤ 1 := by
  intro j hj hjlen
  show ((((solveOrdered c g0)[j]?).map IShift.occ).getD []).length ≤ 1
  rw [List.getElem?_eq_getElem hjlen]
  simp only [Option.map_some', Option.getD_some]
  have hmem : (solveOrdered c g0)[j] ∈
      (((solveProcessable c g0).map
        (fun s => (getDifficulty c
          (derivedAssigned (lockRestoredGrid c.members g0)) s, s))).insertionSort
            (fun a b => a.1 ≤ b.1)).map (fun x => x.2) :=
    mem_append_right_of_getElem _ _ j hj hjlen
  rw [List.mem_map] at hmem
  obtain ⟨pr, hpr, heq⟩ := hmem
  have hpr2 := mem_of_mem_insertionSort hpr
  rw [List.mem_map] at hpr2
  obtain ⟨y, hy, rfl⟩ := hpr2
  rw [← heq]
  exact mem_solveProcessable_occ_le hy

/-! ### The backtracking run issued by solve -/

theorem solveStart_le (c : Sched) (g0 : List Shift) :
    solveStart c g0 ≤ (solveOrdered c g0).length := by
  unfold solveStart solveOrdered
  rw [List.length_append]
  exact Nat.le_add_right _ _

theorem solveRaw_spec (c : Sched) (g0 : List Shift)
    (Inv : (Nat → List Nat) → Prop)
    (Hpairs : ∀ (o : Nat → List Nat) (asg : Nat → List (String × Nat))
      (i : Nat) (pq : Nat × Nat), Inv o → solveStart c g0 ≤ i →
      i < (solveCtx c g0).gs.length →
      pq ∈ validPairs c asg (skelAt (solveCtx c g0) i).day
        (skelAt (solveCtx c g0) i).time_idx →
      Inv (Function.update o i [pq.1, pq.2]))
    (Hpartner : ∀ (o : Nat → List Nat) (asg : Nat → List (String × Nat))
      (i ex p : Nat), Inv o → solveStart c g0 ≤ i →
      i < (solveCtx c g0).gs.length → o i = [ex] →
      p ∈ validPartners c asg (skelAt (solveCtx c g0) i).day
        (skelAt (solveCtx c g0) i).time_idx ex →
      Inv (Function.update o i [ex, p]))
    (hInv0 : Inv (solveInitState c g0).occ) :
    Inv (solveRaw c g0).occ ∧
    (∀ e ∈ (solveRaw c g0).top, GoodEntry (solveCtx c g0) Inv e) ∧
    BestCap (solveCtx c g0) Inv (solveRaw c g0).maxFilled
      (solveRaw c g0).bestState ∧
    (solveRaw c g0).top.length ≤ 51 ∧
    (solveRaw c g0).attempts ≤ 1000001 := by
  have hmaster := backtrack_master (solveCtx c g0) (solveStart c g0) Inv
    Hpairs Hpartner
    ((solveCtx c g0).gs.length + 1 - solveStart c g0) (solveStart c g0)
    (solveInitState c g0) le_rfl
    (fun j hj hjn => solveInit_occ_after c g0 j hj hjn)
    ⟨hInv0, (by rw [show (solveInitState c g0).top = [] from rfl]; intro e he; cases he),
      Or.inl ⟨rfl, rfl⟩,
      (by rw [show (solveInitState c g0).top = [] from rfl]; simp),
      (by rw [show (solveInitState c g0).attempts = 0 from rfl]; simp)⟩
  have hstart : solveStart c g0 ≤ (solveCtx c g0).gs.length := solveStart_le c g0
  have hcapx := hmaster.2 (by omega)
    (by rw [show (solveInitState c g0).attempts = 0 from rfl]; norm_num)
  have hspec := hmaster.1
  have hcap : BestCap (solveCtx c g0) Inv (solveRaw c g0).maxFilled
      (solveRaw c g0).bestState := hcapx
  have hok : ∀ s' : SState, backtrack (solveCtx c g0)
      ((solveCtx c g0).gs.length + 1 - solveStart c g0)
      (solveStart c g0) (solveInitState c g0) = .ok s' →
      solveRaw c g0 = s' := by
    intro s' h
    unfold solveRaw
    rw [h]
    rfl
  have herr : ∀ e : SState, backtrack (solveCtx c g0)
      ((solveCtx c g0).gs.length + 1 - solveStart c g0)
      (solveStart c g0) (solveInitState c g0) = .error e →
      solveRaw c g0 = e := by
    intro e h
    unfold solveRaw
    rw [h]
    rfl
  cases hbt : backtrack (solveCtx c g0)
      ((solveCtx c g0).gs.length + 1 - solveStart c g0)
      (solveStart c g0) (solveInitState c g0) with
  | ok s' =>
    rw [hok s' hbt] at hcap ⊢
    rw [hbt] at hspec
    obtain ⟨h1, ⟨t, ht, hg⟩, -, h4, h5⟩ := hspec
    have ht' : s'.top = t := by simpa [solveInitState] using ht
    refine ⟨by rw [h1]; exact hInv0, ?_, hcap, by omega, by omega⟩
    intro e he
    rw [ht'] at he
    exact hg e he
  | error e =>
    rw [herr e hbt] at hcap ⊢
    rw [hbt] at hspec
    obtain ⟨h1, ⟨t, ht, hg⟩, -, h4, h5⟩ := hspec
    have ht' : e.top = t := by simpa [solveInitState] using ht
    refine ⟨h1, ?_, hcap, h4, h5⟩
    intro x hx
    rw [ht'] at hx
    exact hg x hx

/-! ### Finalization facts about solve -/

theorem solveOn_ret_eq_top_length (c : Sched) (g0 : List Shift) :
    (solveOn c g0).ret = (solveOn c g0).top.length := by
  unfold solveOn
  by_cases h : (solveRaw c g0).top.isEmpty
  · simp [h]
  · simp [h]

theorem solveOn_grid_eq (c : Sched) (g0 : List Shift) :
    (solveOn c g0).grid = restoreGrid c.members
      (regrid (solveCtx c g0) (solveRaw c g0).occ) (solveChosenState c g0) := by
  unfold solveOn solveChosenState restoreState
  by_cases h : (solveRaw c g0).top.isEmpty
  · simp [h]
  · simp [h]

theorem solveOn_top_eq_sorted (c : Sched) (g0 : List Shift)
    (h : ¬(solveRaw c g0).top.isEmpty) :
    (solveOn c g0).top = (solveRaw c g0).top.insertionSort
      (fun a b => b.score ≤ a.score) := by
  unfold solveOn
  simp [h]

theorem solveOn_top_eq_nil (c : Sched) (g0 : List Shift)
    (h : (solveRaw c g0).top.isEmpty) : (solveOn c g0).top = [] := by
  unfold solveOn
  simp [h]

theorem InvBase_update {ms : List Member} {o : Nat → List Nat}
    (hInv : InvBase ms o) {i : Nat} {v : List Nat}
    (hv : ∀ m ∈ v, m < ms.length) : InvBase ms (Function.update o i v) := by
  intro j m hm
  by_cases hj : j = i
  · subst hj
    rw [Function.update_same] at hm
    exact hv m hm
  · rw [Function.update_noteq hj] at hm
    exact hInv j m hm

theorem InvBase_solveInit (c : Sched) (g0 : List Shift) :
    InvBase c.members (solveInitState c g0).occ := by
  intro j m hm
  rcases solveInit_occ_cases c g0 j with h | ⟨x, hx, h⟩
  · rw [h] at hm
    cases hm
  · rw [h] at hm
    exact occ_lt_of_mem_lockRestoredGrid (mem_solveOrdered_sub hx) m hm

theorem solveRaw_base (c : Sched) (g0 : List Shift) :
    InvBase c.members (solveRaw c g0).occ ∧
    (∀ e ∈ (solveRaw c g0).top, GoodEntry (solveCtx c g0) (InvBase c.members) e) ∧
    BestCap (solveCtx c g0) (InvBase c.members) (solveRaw c g0).maxFilled
      (solveRaw c g0).bestState ∧
    (solveRaw c g0).top.length ≤ 51 ∧
    (solveRaw c g0).attempts ≤ 1000001 := by
  refine solveRaw_spec c g0 (InvBase c.members) ?_ ?_ (InvBase_solveInit c g0)
  · intro o asg i pq hInv _ _ hpq
    have hv := validPairs_mem hpq
    have h1 : pq.1 < c.members.length := (mem_workingIdx hv.1).1
    have h2 : pq.2 < c.members.length := (mem_workingIdx hv.2.1).1
    refine InvBase_update hInv ?_
    intro m hm
    rcases List.mem_cons.mp hm with rfl | hm
    · exact h1
    · rcases List.mem_cons.mp hm with rfl | hm
      · exact h2
      · cases hm
  · intro o asg i ex p hInv _ _ hocc hp
    have hexlt : ex < c.members.length := hInv i ex (by rw [hocc]; simp)
    have hplt : p < c.members.length :=
      (mem_workingIdx (validPartners_mem hp).1).1
    refine InvBase_update hInv ?_
    intro m hm
    rcases List.mem_cons.mp hm with rfl | hm
    · exact hexlt
    · rcases List.mem_cons.mp hm with rfl | hm
      · exact hplt
      · cases hm

theorem headD_mem_of_ne_nil {α : Type _} {l : List α} (h : l ≠ []) (d : α) :
    l.headD d ∈ l := by
  cases l with
  | nil => exact absurd rfl h
  | cons a t => simp

theorem solveOn_top_length_raw (c : Sched) (g0 : List Shift) :
    (solveOn c g0).top.length = (solveRaw c g0).top.length := by
  by_cases h : (solveRaw c g0).top.isEmpty
  · rw [solveOn_top_eq_nil c g0 h, List.isEmpty_iff.mp h]
  · rw [solveOn_top_eq_sorted c g0 h, List.length_insertionSort]

theorem solveProcessable_perm (c : Sched) (g0 : List Shift) :
    (solveProcessable c g0).Perm ((lockRestoredGrid c.members g0).filter
      (fun s => !(s.locked && decide (2 ≤ s.occ.length)))) := by
  have hperm := List.filter_append_perm
    (fun s : IShift => s.locked && !(decide (2 ≤ s.occ.length)))
    ((lockRestoredGrid c.members g0).filter
      (fun s => !(s.locked && decide (2 ≤ s.occ.length))))
  rw [List.filter_filter, List.filter_filter] at hperm
  have e1 : (lockRestoredGrid c.members g0).filter
      (fun a => (a.locked && !(decide (2 ≤ a.occ.length)))
        && !(a.locked && decide (2 ≤ a.occ.length)))
      = (lockRestoredGrid c.members g0).filter
        (fun s => s.locked && !(2 ≤ s.occ.length)) := by
    apply List.filter_congr
    intro x hx
    by_cases h1 : x.locked <;> by_cases h2 : (2 ≤ x.occ.length) <;> simp [h1, h2]
  have e2 : (lockRestoredGrid c.members g0).filter
      (fun a => (!(a.locked && !(decide (2 ≤ a.occ.length))))
        && !(a.locked && decide (2 ≤ a.occ.length)))
      = (lockRestoredGrid c.members g0).filter (fun s => !s.locked) := by
    apply List.filter_congr
    intro x hx
    by_cases h1 : x.locked <;> by_cases h2 : (2 ≤ x.occ.length) <;> simp [h1, h2]
  rw [e1, e2] at hperm
  exact hperm

theorem solveOrdered_perm (c : Sched) (g0 : List Shift) :
    (solveOrdered c g0).Perm (lockRestoredGrid c.members g0) := by
  have hsort := List.perm_insertionSort
    (fun a b : Nat × IShift => a.1 ≤ b.1)
    ((solveProcessable c g0).map
      (fun s => (getDifficulty c (derivedAssigned (lockRestoredGrid c.members g0)) s, s)))
  have h2 := hsort.map (fun x : Nat × IShift => x.2)
  rw [List.map_map] at h2
  have h3 : (solveProcessable c g0).map
      ((fun x : Nat × IShift => x.2) ∘
        (fun s => (getDifficulty c (derivedAssigned (lockRestoredGrid c.members g0)) s, s)))
      = solveProcessable c g0 := List.map_id _
  rw [h3] at h2
  have h4 : (solveOrdered c g0).Perm
      (solveFully c g0 ++ (lockRestoredGrid c.members g0).filter
        (fun s => !(s.locked && decide (2 ≤ s.occ.length)))) :=
    List.Perm.append_left (solveFully c g0)
      (h2.trans (solveProcessable_perm c g0))
  exact h4.trans (List.filter_append_perm _ _)

theorem lockRestoredGrid_keys (ms : List Member) (g0 : List Shift) :
    (lockRestoredGrid ms g0).map (fun s => (s.day, s.time_idx)) =
      g0.map (fun s => (s.day, s.time_idx)) := by
  unfold lockRestoredGrid
  rw [List.map_map]
  rfl

theorem solveOrdered_keys_nodup (c : Sched) (g0 : List Shift)
    (hkeys : (g0.map (fun s => (s.day, s.time_idx))).Nodup) :
    ((solveOrdered c g0).map (fun s => (s.day, s.time_idx))).Nodup := by
  have h := (solveOrdered_perm c g0).map (fun s : IShift => (s.day, s.time_idx))
  rw [lockRestoredGrid_keys] at h
  exact h.nodup_iff.mpr hkeys

/-! ### Keys of the reassembled grid, and position lemmas -/

theorem skelAt_eq_getElem (cx : Ctx) {j : Nat} (hj : j < cx.gs.length) :
    skelAt cx j = cx.gs[j] := by
  unfold skelAt
  exact List.getD_eq_getElem _ _ hj

theorem skelAt_mem {cx : Ctx} {j : Nat} (hj : j < cx.gs.length) :
    skelAt cx j ∈ cx.gs := by
  rw [skelAt_eq_getElem cx hj]
  exact List.getElem_mem _

theorem skelAt_default (cx : Ctx) {j : Nat} (hj : ¬(j < cx.gs.length)) :
    skelAt cx j = ⟨"", 0, "", [], false⟩ := by
  unfold skelAt
  exact List.getD_eq_default _ _ (by omega)

theorem regrid_keys (cx : Ctx) (o : Nat → List Nat) :
    (regrid cx o).map (fun s => (s.day, s.time_idx)) =
      cx.gs.map (fun s => (s.day, s.time_idx)) := by
  unfold regrid
  rw [List.map_map]
  apply List.ext_getElem
  · simp
  · intro i h1 h2
    simp only [List.getElem_map, List.getElem_range, Function.comp_apply]
    rw [skelAt_eq_getElem cx (by simpa using h2)]

theorem solveInit_occ_skel (c : Sched) (g0 : List Shift) (j : Nat) :
    (solveInitState c g0).occ j = (skelAt (solveCtx c g0) j).occ := by
  by_cases hj : j < (solveOrdered c g0).length
  · show (((solveOrdered c g0)[j]?).map IShift.occ).getD [] = _
    rw [List.getElem?_eq_getElem hj]
    rw [skelAt_eq_getElem (solveCtx c g0) (by simpa using hj)]
    rfl
  · show (((solveOrdered c g0)[j]?).map IShift.occ).getD [] = _
    rw [List.getElem?_eq_none (by omega)]
    rw [skelAt_default (solveCtx c g0) (by simpa using hj)]
    rfl

theorem skelAt_lt_start {c : Sched} {g0 : List Shift} {j : Nat}
    (hj : j < solveStart c g0) :
    skelAt (solveCtx c g0) j ∈ solveFully c g0 := by
  have hjf : j < (solveFully c g0).length := hj
  have hlen : j < (solveOrdered c g0).length :=
    lt_of_lt_of_le hj (solveStart_le c g0)
  rw [skelAt_eq_getElem (solveCtx c g0) (by simpa using hlen)]
  show (solveOrdered c g0)[j] ∈ _
  unfold solveOrdered
  rw [List.getElem_append_left hjf]
  exact List.getElem_mem _

theorem solveFully_sub {c : Sched} {g0 : List Shift} {x : IShift}
    (h : x ∈ solveFully c g0) : x ∈ lockRestoredGrid c.members g0 :=
  List.mem_of_mem_filter h

theorem solveFully_pred {c : Sched} {g0 : List Shift} {x : IShift}
    (h : x ∈ solveFully c g0) : x.locked = true ∧ 2 ≤ x.occ.length := by
  have := List.of_mem_filter h
  rw [Bool.and_eq_true] at this
  exact ⟨this.1, by simpa using this.2⟩

theorem mem_solveFully_pos {c : Sched} {g0 : List Shift} {x : IShift}
    (h : x ∈ solveFully c g0) :
    ∃ j < solveStart c g0, skelAt (solveCtx c g0) j = x := by
  obtain ⟨j, hjf, hxj⟩ := List.getElem_of_mem h
  have hlen : j < (solveOrdered c g0).length :=
    lt_of_lt_of_le hjf (solveStart_le c g0)
  refine ⟨j, hjf, ?_⟩
  rw [skelAt_eq_getElem (solveCtx c g0) (by simpa using hlen)]
  show (solveOrdered c g0)[j] = x
  unfold solveOrdered
  rw [List.getElem_append_left hjf]
  exact hxj

/-! ### Resolution round-trips and the restored grid by position -/

theorem resolve_names_self {ms : List Member}
    (hnames : (ms.map Member.name).Nodup) {l : List Nat}
    (hl : ∀ m ∈ l, m < ms.length) :
    (l.map (nameAt ms)).filterMap (findIdxByName ms) = l := by
  induction l with
  | nil => rfl
  | cons m rest ih =>
    simp only [List.map_cons, List.filterMap_cons,
      findIdxByName_nameAt_self hnames (hl m (List.mem_cons_self m rest))]
    rw [ih (fun x hx => hl x (List.mem_cons_of_mem _ hx))]

theorem validPairs_lt {c : Sched} {asg : Nat → List (String × Nat)}
    {day : String} {t : Nat} {pq : Nat × Nat}
    (h : pq ∈ validPairs c asg day t) :
    pq.1 < c.members.length ∧ pq.2 < c.members.length := by
  have hv := validPairs_mem h
  exact ⟨(mem_workingIdx hv.1).1, (mem_workingIdx hv.2.1).1⟩

theorem validPartners_lt {c : Sched} {asg : Nat → List (String × Nat)}
    {day : String} {t cur j : Nat} (h : j ∈ validPartners c asg day t cur) :
    j < c.members.length :=
  (mem_workingIdx (validPartners_mem h).1).1

theorem stateGet_capture_at {cx : Ctx} {o : Nat → List Nat}
    (hkeys : (cx.gs.map (fun s => (s.day, s.time_idx))).Nodup)
    {j : Nat} (hj : j < cx.gs.length) :
    stateGet (capture cx o) ((skelAt cx j).day, (skelAt cx j).time_idx) =
      (o j).map (nameAt cx.c.members) := by
  have hkeys2 : ((regrid cx o).map (fun s => (s.day, s.time_idx))).Nodup := by
    rw [regrid_keys]
    exact hkeys
  have hmem : ({ skelAt cx j with occ := o j } : IShift) ∈ regrid cx o :=
    mem_regrid.mpr ⟨j, hj, rfl⟩
  exact stateGet_captureState_unique hkeys2 hmem

theorem mem_solveOn_grid {c : Sched} {g0 : List Shift} {s' : IShift}
    (hs' : s' ∈ (solveOn c g0).grid) :
    ∃ j < (solveCtx c g0).gs.length,
      s'.day = (skelAt (solveCtx c g0) j).day ∧
      s'.time_idx = (skelAt (solveCtx c g0) j).time_idx ∧
      s'.locked = (skelAt (solveCtx c g0) j).locked ∧
      s'.occ = (stateGet (solveChosenState c g0)
        ((skelAt (solveCtx c g0) j).day,
          (skelAt (solveCtx c g0) j).time_idx)).filterMap
        (findIdxByName c.members) := by
  rw [solveOn_grid_eq] at hs'
  obtain ⟨r, hr, rfl⟩ := mem_restoreGrid.mp hs'
  obtain ⟨j, hj, rfl⟩ := mem_regrid.mp hr
  exact ⟨j, hj, rfl, rfl, rfl, rfl⟩

theorem restore_capture_pos {c : Sched} {g0 : List Shift}
    (o oc : Nat → List Nat)
    (hkeys : ((solveCtx c g0).gs.map (fun s => (s.day, s.time_idx))).Nodup)
    {j : Nat} (hj : j < (solveCtx c g0).gs.length) :
    ∃ s' ∈ restoreGrid c.members (regrid (solveCtx c g0) oc)
        (capture (solveCtx c g0) o),
      s'.day = (skelAt (solveCtx c g0) j).day ∧
      s'.time_idx = (skelAt (solveCtx c g0) j).time_idx ∧
      s'.locked = (skelAt (solveCtx c g0) j).locked ∧
      s'.occ = ((o j).map (nameAt c.members)).filterMap
        (findIdxByName c.members) := by
  have hr : ({ skelAt (solveCtx c g0) j with occ := oc j } : IShift) ∈
      regrid (solveCtx c g0) oc := mem_regrid.mpr ⟨j, hj, rfl⟩
  refine ⟨_, mem_restoreGrid.mpr
    ⟨{ skelAt (solveCtx c g0) j with occ := oc j }, hr, rfl⟩, rfl, rfl, rfl, ?_⟩
  show (stateGet (capture (solveCtx c g0) o)
    ((skelAt (solveCtx c g0) j).day,
      (skelAt (solveCtx c g0) j).time_idx)).filterMap (findIdxByName c.members) = _
  rw [stateGet_capture_at hkeys hj]
  rfl

theorem solveOn_attempts_eq (c : Sched) (g0 : List Shift) :
    (solveOn c g0).attempts = (solveRaw c g0).attempts := by
  unfold solveOn
  by_cases h : (solveRaw c g0).top.isEmpty
  · simp [h]
  · simp [h]

theorem solveChosen_spec (c : Sched) (g0 : List Shift)
    (Inv : (Nat → List Nat) → Prop)
    (Hpairs : ∀ (o : Nat → List Nat) (asg : Nat → List (String × Nat))
      (i : Nat) (pq : Nat × Nat), Inv o → solveStart c g0 ≤ i →
      i < (solveCtx c g0).gs.length →
      pq ∈ validPairs c asg (skelAt (solveCtx c g0) i).day
        (skelAt (solveCtx c g0) i).time_idx →
      Inv (Function.update o i [pq.1, pq.2]))
    (Hpartner : ∀ (o : Nat → List Nat) (asg : Nat → List (String × Nat))
      (i ex p : Nat), Inv o → solveStart c g0 ≤ i →
      i < (solveCtx c g0).gs.length → o i = [ex] →
      p ∈ validPartners c asg (skelAt (solveCtx c g0) i).day
        (skelAt (solveCtx c g0) i).time_idx ex →
      Inv (Function.update o i [ex, p]))
    (hInv0 : Inv (solveInitState c g0).occ) :
    ∃ o, Inv o ∧ solveChosenState c g0 = capture (solveCtx c g0) o ∧
      (0 < (solveOn c g0).ret →
        (∀ j < (solveCtx c g0).gs.length, (o j).length = 2) ∧
        mustOK (solveCtx c g0) o = true) := by
  obtain ⟨-, hgood, hcap, -, -⟩ := solveRaw_spec c g0 Inv Hpairs Hpartner hInv0
  by_cases hemp : (solveRaw c g0).top.isEmpty
  · obtain ⟨o, hI, hbs, -⟩ := hcap
    refine ⟨o, hI, ?_, ?_⟩
    · unfold solveChosenState
      rw [if_pos hemp]
      exact hbs
    · intro hpos
      exfalso
      rw [solveOn_ret_eq_top_length, solveOn_top_length_raw] at hpos
      rw [List.isEmpty_iff.mp hemp] at hpos
      simp at hpos
  · have hne : (solveRaw c g0).top ≠ [] := by
      intro hcon
      rw [hcon] at hemp
      exact hemp rfl
    have hsne : (solveRaw c g0).top.insertionSort
        (fun a b => b.score ≤ a.score) ≠ [] := by
      intro hcon
      have := congrArg List.length hcon
      rw [List.length_insertionSort] at this
      exact hne (List.length_eq_zero.mp this)
    have hmem : ((solveRaw c g0).top.insertionSort
        (fun a b => b.score ≤ a.score)).headD
          { state := [], score := 0, description := "" } ∈
          (solveRaw c g0).top :=
      mem_of_mem_insertionSort (headD_mem_of_ne_nil hsne _)
    obtain ⟨o, hI, hfull, hmust, hstate, -⟩ := hgood _ hmem
    refine ⟨o, hI, ?_, fun _ => ⟨hfull, hmust⟩⟩
    unfold solveChosenState
    rw [if_neg hemp]
    exact hstate

/-! ### Shared baseline closure lemmas -/

theorem InvBase_pairs (c : Sched) (g0 : List Shift) :
    ∀ (o : Nat → List Nat) (asg : Nat → List (String × Nat)) (i : Nat)
      (pq : Nat × Nat), InvBase c.members o → solveStart c g0 ≤ i →
      i < (solveCtx c g0).gs.length →
      pq ∈ validPairs c asg (skelAt (solveCtx c g0) i).day
        (skelAt (solveCtx c g0) i).time_idx →
      InvBase c.members (Function.update o i [pq.1, pq.2]) := by
  intro o asg i pq hInv _ _ hpq
  have hlt := validPairs_lt hpq
  refine InvBase_update hInv ?_
  intro m hm
  rcases List.mem_cons.mp hm with rfl | hm
  · exact hlt.1
  · rcases List.mem_cons.mp hm with rfl | hm
    · exact hlt.2
    · cases hm

theorem InvBase_partners (c : Sched) (g0 : List Shift) :
    ∀ (o : Nat → List Nat) (asg : Nat → List (String × Nat)) (i ex p : Nat),
      InvBase c.members o → solveStart c g0 ≤ i →
      i < (solveCtx c g0).gs.length → o i = [ex] →
      p ∈ validPartners c asg (skelAt (solveCtx c g0) i).day
        (skelAt (solveCtx c g0) i).time_idx ex →
      InvBase c.members (Function.update o i [ex, p]) := by
  intro o asg i ex p hInv _ _ hocc hp
  have hplt := validPartners_lt hp
  have hexlt : ex < c.members.length :=
    hInv i ex (by rw [hocc]; exact List.mem_cons_self _ _)
  refine InvBase_update hInv ?_
  intro m hm
  rcases List.mem_cons.mp hm with rfl | hm
  · exact hexlt
  · rcases List.mem_cons.mp hm with rfl | hm
    · exact hplt
    · cases hm

/-- C9: `is_available` resolves an override entry for `(day, slot)` first;
otherwise it is exactly base-availability membership AND NOT(avoid-opening AND
slot = 0) AND NOT(avoid-closing AND slot = 3), with a day absent from the
availability map resolving to unavailable; being a total Lean function it
raises nothing. -/
theorem c9_is_available_refines_spec (m : Member) (day : String) (t : Nat) :
    m.is_available day t = availableSpec m day t := by
  unfold Member.is_available availableSpec
  cases hov : (List.lookup day m.time_overrides).bind
      (fun ov => List.lookup t ov) with
  | some b => rfl
  | none =>
    by_cases h1 : (((List.lookup day m.availability).getD []).contains t) = true <;>
      by_cases h2 : (m.avoid_opening && t == 0) = true <;>
        by_cases h3 : (m.avoid_closing && t == 3) = true <;>
          simp [h1, h2, h3]

/-- C8: the bounded-exploration signal never escapes `solve`: the embedded run
always produces a result, with at most 51 collected alternatives (so the
returned count is at most 51) and with the attempt counter stopped at the
budget (at most 1000001 counted calls). -/
theorem c8_budget_contained (c : Sched) (g0 : List Shift) :
    (solveOn c g0).ret ≤ 51 ∧ (solveOn c g0).top.length ≤ 51 ∧
    (solveOn c g0).attempts ≤ 1000001 := by
  obtain ⟨-, -, -, h51, hatt⟩ := solveRaw_base c g0
  refine ⟨?_, ?_, ?_⟩
  · rw [solveOn_ret_eq_top_length, solveOn_top_length_raw]
    exact h51
  · rw [solveOn_top_length_raw]
    exact h51
  · rw [solveOn_attempts_eq]
    exact hatt

/-- C7: the reroll path of the surrounding application constructs the Search
Engine with a `previous_state` keyword that `Scheduler.__init__` does not
accept, so the construction raises `TypeError`: no reference-state ranking can
take place. -/
theorem c7_previous_state_type_error :
    callRaisesTypeError schedulerInitKeywords appRerollCallKeywords = true := by
  decide

/-- C6 counterexample: on a grid whose two shifts share the `(day, slot)` key,
restoring the state captured from that very grid replaces the first shift's
occupants by the second's, so the round-trip is not the identity. -/
theorem c6_counterexample :
    ¬((restoreState c6ms c6grid (captureState c6ms c6grid)).1.map IShift.occ =
      c6grid.map IShift.occ) := by
  decide

/-- C6 (amended): when the grid's `(day, slot)` keys are distinct, occupants
are roster indices, member names are distinct, and the members'
assigned-shifts lists are the ones derived from the grid (as they are in every
reachable solver state), `restore_state(_capture_state())` leaves the grid and
the assigned-shifts lists exactly as they were. -/
theorem c6_roundtrip (ms : List Member) (g : List IShift)
    (asg : Nat → List (String × Nat))
    (hnames : (ms.map Member.name).Nodup)
    (hkeys : (g.map (fun s => (s.day, s.time_idx))).Nodup)
    (hocc : ∀ s ∈ g, ∀ m ∈ s.occ, m < ms.length)
    (hasg : asg = derivedAssigned g) :
    (restoreState ms g (captureState ms g)).1 = g ∧
    (restoreState ms g (captureState ms g)).2 = asg := by
  have hgrid : restoreGrid ms g (captureState ms g) = g := by
    have hpt : ∀ s ∈ g, ({ s with
        occ := (stateGet (captureState ms g) (s.day, s.time_idx)).filterMap
          (findIdxByName ms) } : IShift) = s := by
      intro s hs
      rw [stateGet_captureState_unique hkeys hs,
        resolve_names_self hnames (hocc s hs)]
    calc restoreGrid ms g (captureState ms g)
        = g.map id := List.map_congr_left hpt
      _ = g := List.map_id g
  refine ⟨hgrid, ?_⟩
  show derivedAssigned (restoreGrid ms g (captureState ms g)) = asg
  rw [hgrid, hasg]

/-- C6 witness: the amended round-trip on a concrete one-shift grid. -/
theorem c6_roundtrip_witness :
    (restoreState c6ms c6wGrid (captureState c6ms c6wGrid)).1 = c6wGrid :=
  (c6_roundtrip c6ms c6wGrid (derivedAssigned c6wGrid) (by decide) (by decide)
    (by decide) rfl).1

/-- C4 (amended): never-schedule filtering holds for the shifts the search
fills, but pre-filled locked occupants bypass it; provided no occupant of the
lock-restored grid carries a never-schedule name, no occupant of the returned
grid does either (whatever `solve` returns). -/
theorem c4_never_schedule (c : Sched) (g0 : List Shift)
    (hlock : ∀ s ∈ lockRestoredGrid c.members g0, ∀ m ∈ s.occ,
      c.never_schedule.contains (nameAt c.members m) = false) :
    ∀ s' ∈ (solveOn c g0).grid, ∀ m ∈ s'.occ,
      c.never_schedule.contains (nameAt c.members m) = false := by
  have hchosen := solveChosen_spec c g0 (InvNever c) ?hp ?hq ?h0
  case hp =>
    intro o asg i pq hI hsi hilen hpq
    obtain ⟨hB, hN⟩ := hI
    refine ⟨InvBase_pairs c g0 o asg i pq hB hsi hilen hpq, ?_⟩
    intro j m hm
    by_cases hj : j = i
    · subst hj
      rw [Function.update_same] at hm
      have hv := validPairs_mem hpq
      rcases List.mem_cons.mp hm with rfl | hm
      · exact Bool.eq_false_iff.mpr (mem_workingIdx hv.1).2
      · rcases List.mem_cons.mp hm with rfl | hm
        · exact Bool.eq_false_iff.mpr (mem_workingIdx hv.2.1).2
        · cases hm
    · rw [Function.update_noteq hj] at hm
      exact hN j m hm
  case hq =>
    intro o asg i ex p hI hsi hilen hocc hp
    obtain ⟨hB, hN⟩ := hI
    refine ⟨InvBase_partners c g0 o asg i ex p hB hsi hilen hocc hp, ?_⟩
    intro j m hm
    by_cases hj : j = i
    · subst hj
      rw [Function.update_same] at hm
      rcases List.mem_cons.mp hm with rfl | hm
      · exact hN _ m (by rw [hocc]; exact List.mem_cons_self _ _)
      · rcases List.mem_cons.mp hm with rfl | hm
        · exact Bool.eq_false_iff.mpr (mem_workingIdx (validPartners_mem hp).1).2
        · cases hm
    · rw [Function.update_noteq hj] at hm
      exact hN j m hm
  case h0 =>
    refine ⟨InvBase_solveInit c g0, ?_⟩
    intro j m hm
    rw [solveInit_occ_skel c g0 j] at hm
    by_cases hj : j < (solveCtx c g0).gs.length
    · exact hlock _ (mem_solveOrdered_sub (skelAt_mem hj)) m hm
    · rw [skelAt_default _ hj] at hm
      cases hm
  obtain ⟨o, ⟨hB, hN⟩, hcs, -⟩ := hchosen
  intro s' hs' m hm
  obtain ⟨j, hj, -, -, -, hoccs⟩ := mem_solveOn_grid hs'
  rw [hcs] at hoccs
  rw [hoccs] at hm
  rw [List.mem_filterMap] at hm
  obtain ⟨n, hn, hres⟩ := hm
  rw [(findIdxByName_spec hres).2]
  rcases stateGet_captureState c.members (regrid (solveCtx c g0) o)
      ((skelAt (solveCtx c g0) j).day, (skelAt (solveCtx c g0) j).time_idx) with
    hnil | ⟨s2, hs2, -, hval⟩
  · rw [show capture (solveCtx c g0) o =
        captureState c.members (regrid (solveCtx c g0) o) from rfl, hnil] at hn
    cases hn
  · rw [show capture (solveCtx c g0) o =
        captureState c.members (regrid (solveCtx c g0) o) from rfl, hval] at hn
    rw [List.mem_map] at hn
    obtain ⟨m2, hm2, rfl⟩ := hn
    obtain ⟨j2, -, rfl⟩ := mem_regrid.mp hs2
    exact hN j2 m2 hm2

/-- C4 counterexample: with `never_schedule = ["B"]` and a locked pre-filled
shift occupied by `B`, `solve` returns a positive count and `B` is still an
occupant of the returned grid. -/
theorem c4_counterexample :
    0 < c4res.ret ∧ ∃ s ∈ c4res.grid, ∃ m ∈ s.occ,
      nameAt [maleB, maleC] m = "B" := by
  decide

/-- C4 witness: the amended guarantee evaluated on a roster scheduled into one
unlocked shift with a non-trivial never-schedule list. -/
theorem c4_never_schedule_witness :
    c4wSched.never_schedule.contains (nameAt c4wSched.members
      (((solveOn c4wSched c4wGrid).grid.headD dIShift).occ.headD 0)) = false :=
  c4_never_schedule c4wSched c4wGrid (by decide)
    ((solveOn c4wSched c4wGrid).grid.headD dIShift) (by decide)
    (((solveOn c4wSched c4wGrid).grid.headD dIShift).occ.headD 0) (by decide)

/-- C2 counterexample: a locked needs-male shift pre-filled with two female
occupants is returned untouched inside a positively-counted complete solution,
so the needs-male guarantee fails on grids with locked shifts. -/
theorem c2_counterexample :
    0 < c2res.ret ∧ ∃ s ∈ c2res.grid, IShift.needsMale s = true ∧
      s.occ.length = 2 ∧ ∀ m ∈ s.occ, ¬(genderAt [femA, femB] m = "Male") := by
  decide

/-- C2 (amended): with distinct member names, distinct `(day, slot)` grid
keys, and every fully-occupied locked needs-male shift of the lock-restored
grid already carrying a male occupant, a positive return leaves a grid whose
every shift has exactly two occupants and whose needs-male shifts each have a
male occupant. -/
theorem c2_needs_male (c : Sched) (g0 : List Shift)
    (hnames : (c.members.map Member.name).Nodup)
    (hkeys : (g0.map (fun s => (s.day, s.time_idx))).Nodup)
    (hlock : ∀ s ∈ lockRestoredGrid c.members g0, s.locked = true →
      2 ≤ s.occ.length → IShift.needsMale s = true →
      ∃ m ∈ s.occ, genderAt c.members m = "Male")
    (hret : 0 < (solveOn c g0).ret) :
    ∀ s' ∈ (solveOn c g0).grid, s'.occ.length = 2 ∧
      (IShift.needsMale s' = true →
        ∃ m ∈ s'.occ, genderAt c.members m = "Male") := by
  have hchosen := solveChosen_spec c g0 (InvMale c g0) ?hp ?hq ?h0
  case hp =>
    intro o asg i pq hI hsi hilen hpq
    obtain ⟨hB, hM⟩ := hI
    refine ⟨InvBase_pairs c g0 o asg i pq hB hsi hilen hpq, ?_⟩
    intro j hnm hlen
    by_cases hj : j = i
    · subst hj
      rw [Function.update_same]
      rcases (validPairs_mem hpq).2.2 hnm with hg | hg
      · exact ⟨pq.1, List.mem_cons_self _ _, hg⟩
      · exact ⟨pq.2, by simp, hg⟩
    · rw [Function.update_noteq hj] at hlen ⊢
      exact hM j hnm hlen
  case hq =>
    intro o asg i ex p hI hsi hilen hocc hp
    obtain ⟨hB, hM⟩ := hI
    refine ⟨InvBase_partners c g0 o asg i ex p hB hsi hilen hocc hp, ?_⟩
    intro j hnm hlen
    by_cases hj : j = i
    · subst hj
      rw [Function.update_same]
      rcases (validPartners_mem hp).2 hnm with hg | hg
      · exact ⟨ex, List.mem_cons_self _ _, hg⟩
      · exact ⟨p, by simp, hg⟩
    · rw [Function.update_noteq hj] at hlen ⊢
      exact hM j hnm hlen
  case h0 =>
    refine ⟨InvBase_solveInit c g0, ?_⟩
    intro j hnm hlen
    rw [solveInit_occ_skel c g0 j] at hlen ⊢
    by_cases hj : j < (solveCtx c g0).gs.length
    · by_cases hjs : j < solveStart c g0
      · have hx := skelAt_lt_start hjs
        have hpred := solveFully_pred hx
        exact hlock _ (solveFully_sub hx) hpred.1 hlen hnm
      · exfalso
        have hle := solveInit_occ_after c g0 j (by omega) hj
        rw [solveInit_occ_skel c g0 j] at hle
        omega
    · rw [skelAt_default _ hj] at hlen
      simp at hlen
  obtain ⟨o, ⟨hB, hM⟩, hcs, hfull⟩ := hchosen
  have hfull2 := (hfull hret).1
  intro s' hs'
  obtain ⟨j, hj, hday, htime, hlocked, hoccs⟩ := mem_solveOn_grid hs'
  rw [hcs, stateGet_capture_at (solveOrdered_keys_nodup c g0 hkeys) hj] at hoccs
  have hoccs2 : s'.occ = o j := by
    rw [hoccs]
    exact resolve_names_self hnames (fun m hm => hB j m hm)
  refine ⟨by rw [hoccs2]; exact hfull2 j hj, ?_⟩
  intro hnm
  have hnm2 : IShift.needsMale (skelAt (solveCtx c g0) j) = true := by
    unfold IShift.needsMale at hnm ⊢
    rw [← htime]
    exact hnm
  obtain ⟨m, hm, hg⟩ := hM j hnm2 (by rw [hfull2 j hj])
  exact ⟨m, by rw [hoccs2]; exact hm, hg⟩

/-- C2 witness: the amended guarantee evaluated on a locked needs-male shift
that does hold a male occupant. -/
theorem c2_needs_male_witness :
    ((solveOn c2wSched c2wGrid).grid.headD dIShift).occ.length = 2 :=
  (c2_needs_male c2wSched c2wGrid (by decide) (by decide) (by decide)
    (by decide) ((solveOn c2wSched c2wGrid).grid.headD dIShift) (by decide)).1

/-! ### Must-schedule extraction helpers -/

theorem mustOK_exists {cx : Ctx} {o : Nat → List Nat} (h : mustOK cx o = true) :
    ∀ n ∈ cx.c.must_schedule, ∃ j < cx.gs.length, ∃ m ∈ o j,
      nameAt cx.c.members m = n := by
  intro n hn
  unfold mustOK at h
  rw [List.all_eq_true] at h
  have h2 := h n hn
  unfold hasName at h2
  rw [List.any_eq_true] at h2
  obtain ⟨j, hj, hj2⟩ := h2
  rw [List.any_eq_true] at hj2
  obtain ⟨m, hm, hm2⟩ := hj2
  exact ⟨j, List.mem_range.mp hj, m, hm, by simpa using hm2⟩

theorem capture_entry_at {cx : Ctx} (o : Nat → List Nat) {j : Nat}
    (hj : j < cx.gs.length) :
    (((skelAt cx j).day, (skelAt cx j).time_idx),
      (o j).map (nameAt cx.c.members)) ∈ capture cx o := by
  show _ ∈ captureState cx.c.members (regrid cx o)
  unfold captureState
  exact List.mem_map.mpr ⟨{ skelAt cx j with occ := o j },
    mem_regrid.mpr ⟨j, hj, rfl⟩, rfl⟩

/-- C3 (amended): every collected alternative's stored state carries every
must-schedule name (the leaf check); and with distinct member names and
distinct `(day, slot)` grid keys, a positive return also puts every
must-schedule name into the returned grid itself. -/
theorem c3_must_schedule (c : Sched) (g0 : List Shift)
    (hnames : (c.members.map Member.name).Nodup)
    (hkeys : (g0.map (fun s => (s.day, s.time_idx))).Nodup) :
    (∀ e ∈ (solveOn c g0).top, ∀ n ∈ c.must_schedule,
      ∃ p ∈ e.state, n ∈ p.2) ∧
    (0 < (solveOn c g0).ret → ∀ n ∈ c.must_schedule,
      ∃ s' ∈ (solveOn c g0).grid, ∃ m ∈ s'.occ, nameAt c.members m = n) := by
  constructor
  · intro e he n hn
    by_cases hemp : (solveRaw c g0).top.isEmpty
    · rw [solveOn_top_eq_nil c g0 hemp] at he
      cases he
    · rw [solveOn_top_eq_sorted c g0 hemp] at he
      have he2 := mem_of_mem_insertionSort he
      obtain ⟨-, hgood, -, -, -⟩ := solveRaw_base c g0
      obtain ⟨o, -, -, hmust, hstate, -⟩ := hgood e he2
      obtain ⟨j, hj, m, hm, hname⟩ := mustOK_exists hmust n hn
      refine ⟨_, (by rw [hstate]; exact capture_entry_at o hj), ?_⟩
      exact List.mem_map.mpr ⟨m, hm, hname⟩
  · intro hret n hn
    obtain ⟨o, hB, hcs, hfull⟩ := solveChosen_spec c g0 (InvBase c.members)
      (InvBase_pairs c g0) (InvBase_partners c g0) (InvBase_solveInit c g0)
    have hmust := (hfull hret).2
    obtain ⟨j, hj, m, hm, hname⟩ := mustOK_exists hmust n hn
    obtain ⟨s', hs', -, -, -, hocc⟩ := restore_capture_pos o
      (solveRaw c g0).occ (solveOrdered_keys_nodup c g0 hkeys) hj
    have hgrid : (solveOn c g0).grid = restoreGrid c.members
        (regrid (solveCtx c g0) (solveRaw c g0).occ)
        (capture (solveCtx c g0) o) := by
      rw [solveOn_grid_eq, hcs]
    refine ⟨s', by rw [hgrid]; exact hs', m, ?_, hname⟩
    rw [hocc, resolve_names_self hnames (fun m2 hm2 => hB j m2 hm2)]
    exact hm

/-- C3 counterexample: with duplicated `(day, slot)` keys the final restore
loses the recorded occupants of the first duplicate, so `solve` returns a
positive count although the must-scheduled member `A` is nowhere in the
returned grid. -/
theorem c3_counterexample :
    0 < c3res.ret ∧ c3res.grid ≠ [] ∧
      ∀ s ∈ c3res.grid, ∀ m ∈ s.occ, ¬(nameAt c3ms m = "A") := by
  decide

/-- C3 witness: the amended guarantee finds the must-scheduled `A` in the
returned grid of a distinct-key scenario. -/
theorem c3_must_schedule_witness :
    ∃ s' ∈ (solveOn c3wSched c3wGrid).grid, ∃ m ∈ s'.occ,
      nameAt c3wSched.members m = "A" :=
  (c3_must_schedule c3wSched c3wGrid (by decide) (by decide)).2 (by decide)
    "A" (by decide)

/-- C5 counterexample: a locked shift pre-filled with two members who are not
on the roster loses both occupants (name resolution drops them at the
lock-restoration pass), so its occupant list after `solve` differs from the
one before. -/
theorem c5_counterexample :
    (∃ s ∈ c5grid, s.locked = true ∧ s.assigned_members.length = 2 ∧
      s.assigned_members.map Member.name = ["X", "Y"]) ∧
    c5res.grid.length = 1 ∧
    ∀ s' ∈ c5res.grid, s'.occ.map (nameAt ([] : List Member)) ≠ ["X", "Y"] := by
  decide

/-- C5 (amended): with distinct member names, distinct `(day, slot)` grid
keys, and locked occupants drawn from the roster, every locked shift with two
occupants reappears in the returned grid with the same key, the lock flag
still set, and the same occupant names in the same order. -/
theorem c5_locked_preserved (c : Sched) (g0 : List Shift)
    (hnames : (c.members.map Member.name).Nodup)
    (hkeys : (g0.map (fun s => (s.day, s.time_idx))).Nodup)
    (hmem : ∀ s ∈ g0, s.locked = true → ∀ p ∈ s.assigned_members,
      p ∈ c.members) :
    ∀ s ∈ g0, s.locked = true → s.assigned_members.length = 2 →
      ∃ s' ∈ (solveOn c g0).grid, s'.day = s.day ∧
        s'.time_idx = s.time_idx ∧ s'.locked = true ∧
        s'.occ.map (nameAt c.members) = s.assigned_members.map Member.name := by
  have hchosen := solveChosen_spec c g0 (InvFrozen c g0) ?hp ?hq ?h0
  case hp =>
    intro o asg i pq hI hsi hilen hpq
    refine ⟨InvBase_pairs c g0 o asg i pq hI.1 hsi hilen hpq, ?_⟩
    intro j hj
    rw [Function.update_noteq (by omega)]
    exact hI.2 j hj
  case hq =>
    intro o asg i ex p hI hsi hilen hocc hp
    refine ⟨InvBase_partners c g0 o asg i ex p hI.1 hsi hilen hocc hp, ?_⟩
    intro j hj
    rw [Function.update_noteq (by omega)]
    exact hI.2 j hj
  case h0 =>
    exact ⟨InvBase_solveInit c g0, fun j _ => solveInit_occ_skel c g0 j⟩
  obtain ⟨o, ⟨hB, hFr⟩, hcs, -⟩ := hchosen
  intro s hs hsl hslen
  have hresolve : ∀ n ∈ s.assigned_members.map Member.name,
      (findIdxByName c.members n).isSome := by
    intro n hn
    obtain ⟨p, hp, rfl⟩ := List.mem_map.mp hn
    exact findIdxByName_isSome_of_mem ⟨p, hmem s hs hsl p hp, rfl⟩
  have hoccval : (if s.locked = true then s.assigned_members.filterMap
      (fun m => findIdxByName c.members m.name) else ([] : List Nat))
      = (s.assigned_members.map Member.name).filterMap
        (findIdxByName c.members) := by
    rw [if_pos hsl, List.filterMap_map]
    rfl
  have hxmem :
      ({ day := s.day, time_idx := s.time_idx, time_label := s.time_label,
         occ := (s.assigned_members.map Member.name).filterMap
           (findIdxByName c.members),
         locked := s.locked } : IShift) ∈ lockRestoredGrid c.members g0 := by
    unfold lockRestoredGrid
    refine List.mem_map.mpr ⟨s, hs, ?_⟩
    rw [← hoccval]
  have hxnames : ((s.assigned_members.map Member.name).filterMap
      (findIdxByName c.members)).map (nameAt c.members)
      = s.assigned_members.map Member.name :=
    map_nameAt_filterMap_resolve hresolve
  have hxlen : ((s.assigned_members.map Member.name).filterMap
      (findIdxByName c.members)).length = 2 := by
    rw [length_filterMap_resolve hresolve, List.length_map, hslen]
  have hxf :
      ({ day := s.day, time_idx := s.time_idx, time_label := s.time_label,
         occ := (s.assigned_members.map Member.name).filterMap
           (findIdxByName c.members),
         locked := s.locked } : IShift) ∈ solveFully c g0 := by
    refine List.mem_filter.mpr ⟨hxmem, ?_⟩
    show (s.locked && decide (2 ≤ ((s.assigned_members.map
      Member.name).filterMap (findIdxByName c.members)).length)) = true
    rw [hsl, hxlen]
    rfl
  obtain ⟨j, hjs, hskel⟩ := mem_solveFully_pos hxf
  have hjlen : j < (solveCtx c g0).gs.length :=
    lt_of_lt_of_le hjs (solveStart_le c g0)
  have hoj : o j = (s.assigned_members.map Member.name).filterMap
      (findIdxByName c.members) := by
    rw [hFr j hjs, hskel]
  obtain ⟨s', hs', hday, htime, hlocked, hocc⟩ := restore_capture_pos o
    (solveRaw c g0).occ (solveOrdered_keys_nodup c g0 hkeys) hjlen
  have hgrid : (solveOn c g0).grid = restoreGrid c.members
      (regrid (solveCtx c g0) (solveRaw c g0).occ)
      (capture (solveCtx c g0) o) := by
    rw [solveOn_grid_eq, hcs]
  have hsocc : s'.occ = o j := by
    rw [hocc]
    exact resolve_names_self hnames (fun m hm => hB j m hm)
  refine ⟨s', by rw [hgrid]; exact hs', ?_, ?_, ?_, ?_⟩
  · rw [hday, hskel]
  · rw [htime, hskel]
  · rw [hlocked, hskel]
    exact hsl
  · rw [hsocc, hoj]
    exact hxnames

/-- C5 witness: the amended frame property on a locked shift whose occupants
are roster members. -/
theorem c5_locked_preserved_witness :
    ∃ s' ∈ (solveOn c5wSched c5wGrid).grid,
      s'.day = (c5wGrid.headD dShift).day ∧
      s'.time_idx = (c5wGrid.headD dShift).time_idx ∧ s'.locked = true ∧
      s'.occ.map (nameAt c5wSched.members) =
        (c5wGrid.headD dShift).assigned_members.map Member.name :=
  c5_locked_preserved c5wSched c5wGrid (by decide) (by decide) (by decide)
    (c5wGrid.headD dShift) (by decide) (by decide) (by decide)

/-! ### Ranked-slot membership helpers -/

theorem fbs_mem_fields {p1 p2 : Member} {days : List String} {e : RankedSlot}
    (h : e ∈ find_best_slots_for_pair p1 p2 days) :
    e.day ∈ days ∧ e.time_idx ∈ [0, 1, 2, 3] ∧
    p1.is_available e.day e.time_idx = true ∧
    p2.is_available e.day e.time_idx = true ∧
    ((e.time_idx == 0 || e.time_idx == 3)
      && !(p1.gender == "Male" || p2.gender == "Male")) = false ∧
    e.score = 100 + (if p1.preferred_days.contains e.day then 10 else 0)
      + (if p2.preferred_days.contains e.day then 10 else 0) + 5 := by
  unfold find_best_slots_for_pair at h
  have h2 := mem_of_mem_insertionSort h
  rw [List.mem_flatMap] at h2
  obtain ⟨d, hd, h3⟩ := h2
  rw [List.mem_filterMap] at h3
  obtain ⟨tl, htl, h4⟩ := h3
  by_cases ha : (p1.is_available d tl.2 && p2.is_available d tl.2) = true
  case neg =>
    rw [if_neg ha] at h4
    cases h4
  rw [if_pos ha] at h4
  by_cases hc : ((tl.2 == 0 || tl.2 == 3)
      && !(p1.gender == "Male" || p2.gender == "Male")) = true
  case pos =>
    rw [if_pos hc] at h4
    cases h4
  rw [if_neg hc] at h4
  have h5 := Option.some.inj h4
  subst h5
  rw [Bool.and_eq_true] at ha
  have ht4 : tl.2 ∈ ([0, 1, 2, 3] : List Nat) := by
    have htl2 : tl = ("10:30-11:30", 0) ∨ tl = ("11:30-12:30", 1) ∨
        tl = ("12:30-1:30", 2) ∨ tl = ("1:30-2:30", 3) := by
      simpa [TIME_SLOTS] using htl
    rcases htl2 with rfl | rfl | rfl | rfl <;> decide
  exact ⟨hd, ht4, ha.1, ha.2, Bool.eq_false_iff.mpr hc, rfl⟩

theorem fbs_mem_exists {p1 p2 : Member} {days : List String} {d : String}
    {t : Nat} (hd : d ∈ days) (ht : t ∈ ([0, 1, 2, 3] : List Nat))
    (h1 : p1.is_available d t = true) (h2 : p2.is_available d t = true)
    (hc : ((t == 0 || t == 3)
      && !(p1.gender == "Male" || p2.gender == "Male")) = false) :
    ∃ e ∈ find_best_slots_for_pair p1 p2 days,
      e.day = d ∧ e.time_idx = t := by
  have hmem : ∀ lbl : String, (lbl, t) ∈ TIME_SLOTS →
      ∃ e ∈ find_best_slots_for_pair p1 p2 days,
        e.day = d ∧ e.time_idx = t := by
    intro lbl hlbl
    refine ⟨{ day := d, time_idx := t, time_label := lbl,
              score := 100 + (if p1.preferred_days.contains d then 10 else 0)
                + (if p2.preferred_days.contains d then 10 else 0) + 5,
              reason := "Both Available"
                ++ (if p1.preferred_days.contains d then
                     ", " ++ p1.name ++ " prefers " ++ d else "")
                ++ (if p2.preferred_days.contains d then
                     ", " ++ p2.name ++ " prefers " ++ d else "") },
      ?_, rfl, rfl⟩
    show _ ∈ find_best_slots_for_pair p1 p2 days
    unfold find_best_slots_for_pair
    refine (List.Perm.mem_iff (List.perm_insertionSort rsGe _)).mpr ?_
    refine List.mem_flatMap.mpr ⟨d, hd, ?_⟩
    refine List.mem_filterMap.mpr ⟨(lbl, t), hlbl, ?_⟩
    rw [if_pos (by simp [h1, h2]), if_neg (Bool.eq_false_iff.mp hc)]
  have ht2 : t = 0 ∨ t = 1 ∨ t = 2 ∨ t = 3 := by simpa using ht
  rcases ht2 with rfl | rfl | rfl | rfl
  · exact hmem "10:30-11:30" (by decide)
  · exact hmem "11:30-12:30" (by decide)
  · exact hmem "12:30-1:30" (by decide)
  · exact hmem "1:30-2:30" (by decide)

/-- C10: `find_best_slots_for_pair` returns a score-descending-sorted list
(being a pure Lean function it mutates nothing); each entry's score is the
base 100, plus 10 for each of the two whose preferred days include its day,
plus the 5 bonus; and the entries cover exactly the (day, slot) pairs of
`active_days` times slots 0..3 where both are available, minus the needs-male
slots that neither can cover. -/
theorem c10_find_best_slots (p1 p2 : Member) (days : List String) :
    (find_best_slots_for_pair p1 p2 days).Sorted rsGe ∧
    (∀ e ∈ find_best_slots_for_pair p1 p2 days,
      e.score = 100 + (if p1.preferred_days.contains e.day then 10 else 0)
        + (if p2.preferred_days.contains e.day then 10 else 0) + 5) ∧
    (∀ d t, (∃ e ∈ find_best_slots_for_pair p1 p2 days,
        e.day = d ∧ e.time_idx = t) ↔
      (d ∈ days ∧ t ∈ ([0, 1, 2, 3] : List Nat) ∧
        p1.is_available d t = true ∧ p2.is_available d t = true ∧
        ¬((t = 0 ∨ t = 3) ∧ p1.gender ≠ "Male" ∧ p2.gender ≠ "Male"))) := by
  refine ⟨?_, ?_, ?_⟩
  · show (List.insertionSort rsGe _).Sorted rsGe
    exact List.sorted_insertionSort rsGe _
  · intro e he
    exact (fbs_mem_fields he).2.2.2.2.2
  · intro d t
    constructor
    · rintro ⟨e, he, rfl, rfl⟩
      obtain ⟨h1, h2, h3, h4, h5, -⟩ := fbs_mem_fields he
      refine ⟨h1, h2, h3, h4, ?_⟩
      rintro ⟨hidx, hg1, hg2⟩
      rcases hidx with h | h <;> simp [h, hg1, hg2] at h5
    · rintro ⟨hd, ht, h1, h2, hcond⟩
      apply fbs_mem_exists hd ht h1 h2
      by_cases hi : (t == 0 || t == 3) = true
      · have hg : p1.gender = "Male" ∨ p2.gender = "Male" := by
          by_contra hb
          push_neg at hb
          exact hcond ⟨by simpa using hi, hb.1, hb.2⟩
        rcases hg with hg | hg <;> simp [hg]
      · have hi2 : (t == 0 || t == 3) = false := Bool.eq_false_iff.mpr hi
        simp [hi2]
